import Mathlib

/-!
Verification of the Family aggregate of the matched-filter detection
post-processing layer (source file:
eqcorrscan/core/match_filter/family.py).

The Python classes Template and Detection, and the helper get_catalog,
live in neighbouring modules (template.py, detection.py) that are not
part of this repository snapshot; they are modelled from the
specification and marked as such in their doc comments.  Everything
about the Family class itself (construction, the catalog property and
its setter, add, iadd, eq, sort, copy, append, lag_calc post-processing,
and the csv writer and reader) is translated directly from family.py.

Modelling conventions:
  Python floats are modelled as rationals.
  UTCDateTime timestamps are modelled as integers (microsecond counts);
  obspy's string round trip for timestamps is modelled as the decimal
  integer rendering.
  In-place mutation is made explicit: operations return the post-call
  state of the receiver (and, where relevant, the returned object).
  Exceptions are modelled with Except String.
-/

namespace FamilySpec

/-- Modelled from the spec: an external Template (template.py is not in the
snapshot).  It is identified by its name and carries a pre-pick offset, a
reference waveform with processing parameters, and reference pick offsets.
Two templates are equal only if their full parameter sets and waveforms
match, which the derived structural equality gives. -/
structure Template where
  name : String
  prepick : ℚ
  samp_rate : ℚ
  st : List ℚ
  refPicks : List ℚ
deriving DecidableEq

/-- A single phase pick of an event: the waveform identifier and the pick
time (seconds, as a rational). -/
structure Pick where
  waveform_id : String
  time : ℚ
deriving DecidableEq

/-- An event record of the derived catalog: its resource identifier, an
explicit marker recording whether the origin was estimated (synthesized)
rather than stored, and its picks. -/
structure Event where
  resource_id : String
  originEstimated : Bool
  picks : List Pick
deriving DecidableEq

/-- Modelled from the spec: an external Detection record (detection.py is
not in the snapshot).  Fields as listed in the data model: template name,
detection time, channel count, detection statistic, threshold parameters,
detection type, optional attached event, contributing channels, and the
stable string id. -/
structure Detection where
  template_name : String
  detect_time : ℤ
  no_chans : ℤ
  detect_val : ℚ
  threshold : ℚ
  threshold_type : String
  threshold_input : ℚ
  typeofdet : String
  event : Option Event
  chans : List String
  id : String
deriving DecidableEq

/-- Modelled from the spec: get_catalog (detection.py, not in the snapshot)
derives the event catalog from a Detection collection, one event record per
Detection (its attached event when present); the spec treats the catalog as
a projection kept in length-sync with the Detections it summarizes. -/
def get_catalog (dets : List Detection) : List Event :=
dets.map (fun d => d.event.getD { resource_id := d.id, originEstimated := false, picks := [] })

/-- The Family aggregate (family.py, class Family): one template, the
detection collection, and the private derived-catalog cache
(the attribute named catalog with name mangling in the source). -/
structure Family where
  template : Template
  detections : List Detection
  catalogCache : List Event
deriving DecidableEq

/-- Warning text logged by the constructor when a catalog argument is
supplied (family.py lines 53-55). -/
def catalogWarning : String :=
"Setting catalog directly is no-longer supported, now generated from detections."

/-- Family.init (family.py lines 46-55): stores the template and
detections, computes the catalog cache from the detections, and merely
logs a warning (second component) when a non-empty catalog argument is
supplied.  No validation of the detections is performed. -/
def familyInit (template : Template) (detections : List Detection)
    (catalog : Option (List Event)) : Family × List String :=
let fam : Family :=
  { template := template, detections := detections,
    catalogCache := get_catalog detections }
match catalog with
| some c => if c.length ≠ 0 then (fam, [catalogWarning]) else (fam, [])
| none => (fam, [])

/-- The catalog property read (family.py lines 57-61): recompute the cache
exactly when its length diverges from the detection count; returns the
catalog together with the post-read state of the family. -/
def catalogRead (f : Family) : List Event × Family :=
if f.catalogCache.length ≠ f.detections.length then
  (get_catalog f.detections, { f with catalogCache := get_catalog f.detections })
else (f.catalogCache, f)

/-- The catalog property setter (family.py lines 63-66): always raises. -/
def catalogSet (_f : Family) (_c : List Event) : Except String Family :=
.error ("Setting catalog directly is no-longer supported")

/-- Operand of the combine operations: a Family, a single Detection, or
any other object (family.py dispatches on the runtime type). -/
inductive FamOperand where
| fam (f : Family)
| det (d : Detection)
| unsupported
deriving DecidableEq

/-- Family.iadd (family.py lines 142-170), the mutating combine: returns
the post-call state of the receiver.  A Family operand requires full
template equality; a Detection operand requires its template_name to equal
the template name; anything else is an unsupported operand. On success the
operand detections are appended and the catalog cache is extended. -/
def famIadd (self : Family) (other : FamOperand) : Except String Family :=
match other with
| .fam o =>
  if o.template = self.template then
    .ok { self with
          detections := self.detections ++ o.detections
          catalogCache := self.catalogCache ++ get_catalog o.detections }
  else .error ("Templates do not match")
| .det d =>
  if d.template_name = self.template.name then
    .ok { self with
          detections := self.detections ++ [d]
          catalogCache := self.catalogCache ++ get_catalog [d] }
  else .error ("Templates do not match")
| .unsupported => .error ("Can only extend with a Detection or Family object.")

/-- Effect of the statement f += x (family.py iadd): on success the
receiver is rebound to the combined family; the pair is
(post-call state of f, value the expression evaluates to). -/
def famIaddEffect (self : Family) (other : FamOperand) :
    Except String (Family × Family) :=
(famIadd self other).map (fun r => (r, r))

/-- Effect of the expression f + x (family.py lines 85-141, add): the
receiver is deep-copied first and the copy is extended, so the post-call
state of f is f itself; the pair is (post-call state of f, returned
family). -/
def famAddEffect (self : Family) (other : FamOperand) :
    Except String (Family × Family) :=
(famIadd self other).map (fun r => (self, r))

/-- Family.append (family.py lines 386-411): returns self.add(other). -/
def famAppendEffect : Family → FamOperand → Except String (Family × Family) :=
famAddEffect

/-- The documented Family invariant: every Detection in the collection has
template_name equal to the template name of the Family. -/
def famInv (f : Family) : Prop :=
∀ d ∈ f.detections, d.template_name = f.template.name

instance famInvDecidable (f : Family) : Decidable (famInv f) :=
List.decidableBAll _ f.detections

/-- Modelled from the spec: Detection value equality (Detection.eq in
detection.py, not in the snapshot) compares all fields, with a numeric
tolerance tol on the float fields used for thresholds (threshold,
detect_val, threshold_input). -/
def detEq (tol : ℚ) (a b : Detection) : Bool :=
decide (a.template_name = b.template_name) &&
decide (a.detect_time = b.detect_time) &&
decide (a.no_chans = b.no_chans) &&
decide (|a.detect_val - b.detect_val| ≤ tol) &&
decide (|a.threshold - b.threshold| ≤ tol) &&
decide (a.threshold_type = b.threshold_type) &&
decide (|a.threshold_input - b.threshold_input| ≤ tol) &&
decide (a.typeofdet = b.typeofdet) &&
decide (a.event = b.event) &&
decide (a.chans = b.chans) &&
decide (a.id = b.id)

/-- The sorting key order of Family.sort (family.py line 359): ascending
by detect_time. -/
def detLe (d1 d2 : Detection) : Prop := d1.detect_time ≤ d2.detect_time

instance : DecidableRel detLe :=
fun a b => inferInstanceAs (Decidable (a.detect_time ≤ b.detect_time))

instance : IsTotal Detection detLe :=
⟨fun a b => le_total a.detect_time b.detect_time⟩

instance : IsTrans Detection detLe :=
⟨fun _ _ _ h1 h2 => le_trans h1 h2⟩

/-- Family.sort key order (family.py line 359).  Python sorted is a
stable sort; insertion sort with the non-strict key comparison is
extensionally the same stable sort. -/
def sortDets (l : List Detection) : List Detection :=
List.insertionSort detLe l

/-- Family.sort (family.py lines 334-360): reorders the detection
collection in place, ascending by detect_time, and returns self. -/
def famSort (f : Family) : Family :=
{ f with detections := sortDets f.detections }

/-- Pairwise detection comparison of the zipped sorted collections
(family.py lines 222-225). -/
def pairwiseDetEq (tol : ℚ) (xs ys : List Detection) : Bool :=
(xs.zip ys).all (fun p => detEq tol p.1 p.2)

/-- Family.eq (family.py lines 172-229) with its side effects made
explicit: returns (result, post-call state of self, post-call state of
other).  Templates are compared by full value; unequal detection counts
give false; with non-zero counts both operands are sorted in place and the
sorted collections are compared pairwise; finally the catalog lengths are
compared (reading the catalog property can refresh the caches). -/
def famEqRun (tol : ℚ) (self other : Family) : Bool × Family × Family :=
if self.template = other.template then
  if self.detections.length = other.detections.length then
    if self.detections.length ≠ 0 ∧ other.detections.length ≠ 0 then
      let self1 := famSort self
      let other1 := famSort other
      if pairwiseDetEq tol self1.detections other1.detections then
        let ra := catalogRead self1
        let rb := catalogRead other1
        (decide (ra.1.length = rb.1.length), ra.2, rb.2)
      else (false, self1, other1)
    else
      let ra := catalogRead self
      let rb := catalogRead other
      (decide (ra.1.length = rb.1.length), ra.2, rb.2)
  else (false, self, other)
else (false, self, other)

/-- The boolean value of the == comparison (family.py lines 172-229). -/
def famEqBool (tol : ℚ) (self other : Family) : Bool :=
(famEqRun tol self other).1

/-- Shift every pick time by the template pre-pick offset (family.py
lines 625-626: pick.time += self.template.prepick). -/
def shiftPicks (prepick : ℚ) (picks : List Pick) : List Pick :=
picks.map (fun p => { p with time := p.time + prepick })

/-- One iteration of the lag_calc write-back loop (family.py lines
627-628): find the first detection whose id matches and replace the picks
of its attached event.  An absent id is an IndexError; a matching
detection without an event is an AttributeError. -/
def applyPicked (detectionId : String) (picks : List Pick) :
    List Detection → Except String (List Detection)
| [] => .error ("IndexError: list index out of range")
| d :: rest =>
  if d.id = detectionId then
    match d.event with
    | some ev => .ok ({ d with event := some { ev with picks := picks } } :: rest)
    | none => .error ("AttributeError: NoneType has no attribute picks")
  else (applyPicked detectionId picks rest).map (fun l => d :: l)

/-- The write-back phase of Family.lag_calc (family.py lines 624-628): for
each (detection id, refined event) produced by the pick refiner, add the
template pre-pick offset to each pick time once and replace the picks of
the matching detection in place.  The refiner output is modelled as an
association list, the iteration order of the Python dict. -/
def lagCalcApply (f : Family) (picked : List (String × Event)) :
    Except String Family :=
picked.foldlM (fun fam pr =>
  (applyPicked pr.1 (shiftPicks fam.template.prepick pr.2.picks) fam.detections).map
    (fun dets => { fam with detections := dets })) f

/-- Look up a detection id in the refiner output. -/
def assocFind (picked : List (String × Event)) (i : String) : Option Event :=
(picked.find? (fun pr => decide (pr.1 = i))).map Prod.snd

/-- The per-detection result of the lag_calc write-back: a detection
whose id appears in the refiner output has the picks of its event
replaced by the refined picks shifted once by the pre-pick; any other
detection is unmodified. -/
def lagCalcElem (t : Template) (picked : List (String × Event))
    (d : Detection) : Detection :=
match assocFind picked d.id with
| none => d
| some ev =>
  { d with event := d.event.map (fun e => { e with picks := shiftPicks t.prepick ev.picks }) }

/-- Functional description of the lag_calc write-back over the whole
detection collection. -/
def lagCalcExpected (t : Template) (picked : List (String × Event))
    (dets : List Detection) : List Detection :=
dets.map (lagCalcElem t picked)

/-! Character-list models of the Python string operations used by the
flat-text serializer (family.py lines 804-873).  Strings are manipulated
as lists of characters. -/

/-- Whitespace test of the Python strip family. -/
def isWS (c : Char) : Bool := c.isWhitespace

/-- Python str.rstrip with no argument: drop trailing whitespace. -/
def pyRStrip (l : List Char) : List Char :=
(l.reverse.dropWhile isWS).reverse

/-- Python str.strip with no argument: drop whitespace on both ends. -/
def pyStrip (l : List Char) : List Char :=
((l.dropWhile isWS).reverse.dropWhile isWS).reverse

/-- Python str.rstrip applied with the single character 0, as used on the
fixed-precision float rendering (family.py line 820). -/
def rstripZeros (l : List Char) : List Char :=
(l.reverse.dropWhile (fun c => decide (c = '0'))).reverse

/-- Python str.split on a single-character separator: every occurrence
splits, and a trailing separator yields a final empty part. -/
def splitOnChar (c : Char) : List Char → List (List Char)
| [] => [[]]
| x :: xs =>
  if x = c then [] :: splitOnChar c xs
  else
    match splitOnChar c xs with
    | [] => [[x]]
    | h :: t => (x :: h) :: t

/-- First occurrence of the two-character separator colon-space, with the
parts before and after it (the reader splits each key-value chunk on this
separator, family.py lines 844-845). -/
def splitColonSpaceFirst : List Char → Option (List Char × List Char)
| [] => none
| x :: xs =>
  if x = ':' ∧ xs.head? = some ' ' then some ([], xs.tail)
  else (splitColonSpaceFirst xs).map (fun pq => (x :: pq.1, pq.2))

/-- The part after the last occurrence of colon-space (Python split with
index -1), computed with an explicit fuel bound. -/
def lastColonSpacePart : ℕ → List Char → List Char
| 0, l => l
| fuel+1, l =>
  match splitColonSpaceFirst l with
  | none => l
  | some pq => lastColonSpacePart fuel pq.2

/-- The key of a chunk: part before the first colon-space, stripped
(family.py line 844). -/
def pyKeyOf (chunk : List Char) : List Char :=
pyStrip (match splitColonSpaceFirst chunk with
         | none => chunk
         | some pq => pq.1)

/-- The value of a chunk: part after the last colon-space, stripped
(family.py line 845). -/
def pyValOf (chunk : List Char) : List Char :=
pyStrip (lastColonSpacePart chunk.length chunk)

/-- Numeric value of a decimal digit character. -/
def digitVal (c : Char) : ℕ := c.toNat - 48

/-- Decimal value of a digit list. -/
def natVal (l : List Char) : ℕ :=
l.foldl (fun acc c => acc * 10 + digitVal c) 0

/-- All characters are decimal digits. -/
def allDigits (l : List Char) : Bool := l.all Char.isDigit

/-- Decimal digit character of a value below ten. -/
def digitChar : ℕ → Char
| 0 => '0'
| 1 => '1'
| 2 => '2'
| 3 => '3'
| 4 => '4'
| 5 => '5'
| 6 => '6'
| 7 => '7'
| 8 => '8'
| _ => '9'

/-- Decimal rendering helper with explicit fuel. -/
def natToDecAux : ℕ → ℕ → List Char
| 0, _ => []
| fuel+1, n =>
  if n = 0 then [] else natToDecAux fuel (n / 10) ++ [digitChar (n % 10)]

/-- Decimal rendering of a natural number, as Python str of an int. -/
def natToDec (n : ℕ) : List Char :=
if n = 0 then ['0'] else natToDecAux n n

/-- Decimal rendering of an integer, as Python str of an int; also the
model of the obspy UTCDateTime string round trip for timestamps. -/
def intToDec (z : ℤ) : List Char :=
if z < 0 then '-' :: natToDec z.natAbs else natToDec z.natAbs

/-- Parse a non-empty all-digit list. -/
def parseNat (l : List Char) : Option ℕ :=
if l ≠ [] ∧ allDigits l then some (natVal l) else none

/-- Parse an optionally signed decimal integer (models the UTCDateTime
constructor applied to the rendered timestamp). -/
def parseInt (l : List Char) : Option ℤ :=
if l.head? = some '-' then (parseNat l.tail).map (fun (n : ℕ) => -(n : ℤ))
else (parseNat l).map (fun (n : ℕ) => (n : ℤ))

/-- Parse an unsigned decimal numeral with an optional fractional part,
as accepted by Python float on the strings the writer emits. -/
def parseFloatPos (l : List Char) : Option ℚ :=
let ip := l.takeWhile Char.isDigit
let rest := l.dropWhile Char.isDigit
if rest = [] then (if ip = [] then none else some ((natVal ip : ℚ)))
else if rest.head? = some '.' ∧ allDigits rest.tail ∧ (ip ≠ [] ∨ rest.tail ≠ []) then
  some ((natVal ip : ℚ) + (natVal rest.tail : ℚ) / 10 ^ rest.tail.length)
else none

/-- Python float applied to a decimal string, with an optional sign. -/
def parseFloat (l : List Char) : Option ℚ :=
if l.head? = some '-' then (parseFloatPos l.tail).map Neg.neg
else parseFloatPos l

/-- Python int applied to a float: truncation toward zero. -/
def pyInt (q : ℚ) : ℤ := if 0 ≤ q then ⌊q⌋ else -⌊-q⌋

/-- Round the fraction num over den to the nearest integer, ties to
even: the rounding of Python fixed-precision float formatting, written on
the numerator and denominator so that only integer arithmetic occurs. -/
def roundHalfEvenScaled (num : ℤ) (den : ℕ) : ℤ :=
let f := Int.fdiv num den
let r := num - f * den
if 2 * r < den then f
else if (den : ℤ) < 2 * r then f + 1
else if f % 2 = 0 then f else f + 1

/-- Ten to the 32nd, the scale of the 32-decimal-place float format used
by the writer (family.py line 820). -/
def pow32 : ℕ := 10 ^ 32

/-- Fixed 32-decimal-place rendering of a non-negative rational, the
model of Python format with specifier .32f.  Floats are modelled as
rationals, so the rendering is the rounded decimal expansion of the
rational rather than of a binary double. -/
def renderFixed32Pos (q : ℚ) : List Char :=
let n := (roundHalfEvenScaled (q.num * (pow32 : ℕ)) q.den).toNat
let fd := natToDec (n % pow32)
natToDec (n / pow32) ++ '.' :: (List.replicate (32 - fd.length) '0' ++ fd)

/-- Fixed 32-decimal-place rendering with sign handling. -/
def renderFixed32 (q : ℚ) : List Char :=
if q < 0 then '-' :: renderFixed32Pos (-q) else renderFixed32Pos q

/-- The threshold-field rendering of the writer (family.py line 820):
fixed 32-place format with trailing zeros stripped. -/
def pyFloatField (q : ℚ) : List Char := rstripZeros (renderFixed32 q)

/-- Python repr of a string element inside a rendered list: the element
wrapped in single quotes. -/
def quoteStr (s : String) : List Char := '\'' :: s.data ++ ['\'']

/-- Python comma-space join of rendered list elements. -/
def commaJoin : List (List Char) → List Char
| [] => []
| [c] => c
| c :: rest => c ++ ',' :: ' ' :: commaJoin rest

/-- Python str of a list of strings, as written for the chans field. -/
def chansRender (chans : List String) : List Char :=
'[' :: commaJoin (chans.map quoteStr) ++ [']']

/-- Parse one single-quoted string element (the shape ast.literal_eval
accepts inside the rendered chans list). -/
def parseQuoted (l : List Char) : Option String :=
if 2 ≤ l.length ∧ l.head? = some '\'' ∧ l.getLast? = some '\'' ∧
   ((l.drop 1).dropLast.all (fun c => decide (c ≠ '\''))) then
  some (String.mk ((l.drop 1).dropLast))
else none

/-- First occurrence of the two-character separator comma-space. -/
def splitCommaSpaceFirst : List Char → Option (List Char × List Char)
| [] => none
| x :: xs =>
  if x = ',' ∧ xs.head? = some ' ' then some ([], xs.tail)
  else (splitCommaSpaceFirst xs).map (fun pq => (x :: pq.1, pq.2))

/-- Split on every comma-space occurrence, with explicit fuel. -/
def splitCommaSpaceAux : ℕ → List Char → List (List Char)
| 0, l => [l]
| fuel+1, l =>
  match splitCommaSpaceFirst l with
  | none => [l]
  | some pq => pq.1 :: splitCommaSpaceAux fuel pq.2

/-- Model of ast.literal_eval on the rendered chans value: a bracketed,
comma-space separated list of single-quoted strings (family.py line 857;
literal_eval itself is Python library code, modelled on the shapes the
writer produces). -/
def chansParse (l : List Char) : Option (List String) :=
if l.head? = some '[' ∧ l.getLast? = some ']' ∧ 2 ≤ l.length then
  let inner := (l.drop 1).dropLast
  if inner = [] then some []
  else (splitCommaSpaceAux inner.length inner).mapM parseQuoted
else none

/-- The value written for the event field (family.py lines 817-818): the
resource identifier of the attached event, or the str of None. -/
def eventFieldValue (d : Detection) : List Char :=
match d.event with
| some e => e.resource_id.data
| none => ("None").data

/-- One key-value pair as written by the writer: key, colon, space,
value. -/
def kv (k : String) (v : List Char) : List Char :=
k.data ++ ':' :: ' ' :: v

/-- The field list of one detection line, in the attribute order of the
Detection record (the writer iterates the attribute dictionary of the
external Detection class; the order is modelled from the field order of
the data model in the spec). -/
def detFields (d : Detection) : List (List Char) :=
[ kv ("template_name") d.template_name.data
, kv ("detect_time") (intToDec d.detect_time)
, kv ("no_chans") (intToDec d.no_chans)
, kv ("detect_val") (pyFloatField d.detect_val)
, kv ("threshold") (pyFloatField d.threshold)
, kv ("threshold_type") d.threshold_type.data
, kv ("threshold_input") (pyFloatField d.threshold_input)
, kv ("typeofdet") d.typeofdet.data
, kv ("event") (eventFieldValue d)
, kv ("chans") (chansRender d.chans)
, kv ("id") d.id.data ]

/-- One detection line as written by the writer (family.py lines 813-824):
every field followed by a semicolon and a space. -/
def encodeDetection (d : Detection) : List Char :=
(detFields d).foldr (fun c acc => c ++ ';' :: ' ' :: acc) []

/-- The writer _write_family (family.py lines 804-825): one line per
detection of the family, in order. -/
def writeFamilyLines (f : Family) : List (List Char) :=
f.detections.map encodeDetection

/-- The partially decoded key-value dictionary built by the reader loop,
plus the flag recorded when an event reference cannot be resolved because
the supplied catalog is empty. -/
structure DetParse where
  template_name : Option String := none
  detect_time : Option ℤ := none
  no_chans : Option ℤ := none
  detect_val : Option ℚ := none
  threshold : Option ℚ := none
  threshold_type : Option String := none
  threshold_input : Option ℚ := none
  typeofdet : Option String := none
  event : Option Event := none
  chans : Option (List String) := none
  id : Option String := none
  genEvent : Bool := false
deriving DecidableEq

/-- Resolution of an event reference against the supplied catalog
(family.py lines 850-852): the first event whose resource identifier has
the referenced value as its last slash-separated component; none models
the IndexError raised when no event matches. -/
def resolveEvent (all_cat : List Event) (value : List Char) : Option Event :=
all_cat.find? (fun e => decide ((splitOnChar '/' e.resource_id.data).getLastD [] = value))

/-- The per-chunk dispatch of the reader loop (family.py lines 843-866),
in source order: event (synthesis flag when the supplied catalog is
empty, otherwise resolution that fails when nothing matches), detect_time,
chans, the four plain string keys, no_chans via float then int, an empty
key skipped, and every remaining key read as a float; of those only the
three threshold fields are accepted by the Detection constructor. -/
def decodeChunk (all_cat : List Event) (s : DetParse) (chunk : List Char) :
    Option DetParse :=
let key := String.mk (pyKeyOf chunk)
let value := pyValOf chunk
if key = "event" then
  if all_cat.length = 0 then some { s with genEvent := true }
  else (resolveEvent all_cat value).map (fun e => { s with event := some e })
else if key = "detect_time" then
  (parseInt value).map (fun t => { s with detect_time := some t })
else if key = "chans" then
  (chansParse value).map (fun c => { s with chans := some c })
else if key = "template_name" then some { s with template_name := some (String.mk value) }
else if key = "typeofdet" then some { s with typeofdet := some (String.mk value) }
else if key = "id" then some { s with id := some (String.mk value) }
else if key = "threshold_type" then some { s with threshold_type := some (String.mk value) }
else if key = "no_chans" then
  (parseFloat value).map (fun q => { s with no_chans := some (pyInt q) })
else if key = "" then some s
else if key = "threshold" then
  (parseFloat value).map (fun q => { s with threshold := some q })
else if key = "detect_val" then
  (parseFloat value).map (fun q => { s with detect_val := some q })
else if key = "threshold_input" then
  (parseFloat value).map (fun q => { s with threshold_input := some q })
else none

/-- Modelled from the spec: the external Detection constructor applied to
the decoded dictionary.  The scalar fields are required; chans defaults
to the empty list, the event to none, and the id to the derived stable
key built from template name and time. -/
def mkDetectionFromParse (s : DetParse) : Option Detection :=
match s.template_name, s.detect_time, s.no_chans, s.detect_val, s.threshold,
      s.threshold_type, s.threshold_input, s.typeofdet with
| some tn, some dt, some nc, some dv, some th, some tt, some ti, some td =>
  some { template_name := tn
         detect_time := dt
         no_chans := nc
         detect_val := dv
         threshold := th
         threshold_type := tt
         threshold_input := ti
         typeofdet := td
         event := s.event
         chans := s.chans.getD []
         id := s.id.getD (tn ++ "_" ++ String.mk (intToDec dt)) }
| _, _, _, _, _, _, _, _ => none

/-- Modelled from the spec: the external Detection method calculate_event
(detection.py, not in the snapshot) synthesizes a best-effort event from
the Template, marks it origin-estimated when asked to, and reapplies the
pre-pick correction to the synthesized pick times. -/
def calculateEvent (t : Template) (d : Detection) (estimateOrigin : Bool)
    (correctPrepick : Bool) : Event :=
{ resource_id := d.id
  originEstimated := estimateOrigin
  picks := t.refPicks.map (fun p =>
    { waveform_id := t.name
      time := (d.detect_time : ℚ) + p - (if correctPrepick then t.prepick else 0) }) }

/-- Decoding of one detection line by the reader (family.py lines
840-872): strip the line, split on semicolons, fold the chunk dispatch
over the parts, build the Detection, and synthesize its event when the
flag was recorded. -/
def decodeLine (all_cat : List Event) (template : Template)
    (estimateOrigin : Bool) (line : List Char) : Option Detection :=
match (splitOnChar ';' (pyRStrip line)).foldlM (decodeChunk all_cat)
      ({} : DetParse) with
| none => none
| some s =>
  (mkDetectionFromParse s).map (fun d =>
    if s.genEvent then
      { d with event := some (calculateEvent template d estimateOrigin true) }
    else d)

/-- The reader _read_family (family.py lines 828-873): decode every line;
a failure on any line aborts the whole read. -/
def readFamilyLines (all_cat : List Event) (template : Template)
    (estimateOrigin : Bool) (lines : List (List Char)) :
    Option (List Detection) :=
lines.mapM (decodeLine all_cat template estimateOrigin)

/-! Auxiliary specification-side definitions used to state the claims. -/

/-- Replace the picks of the attached event when the detection id
matches; the per-element counterpart of one write-back step. -/
def updElem (i : String) (picks : List Pick) (d : Detection) : Detection :=
if d.id = i then
  { d with event := d.event.map (fun e => { e with picks := picks }) }
else d

/-- Replace, for every detection whose id matches, the picks of its
attached event; the functional counterpart of one write-back step. -/
def updOne (i : String) (picks : List Pick) (dets : List Detection) :
    List Detection :=
dets.map (updElem i picks)

/-- The chunk sequence of one written line with the final separator space
already stripped: every chunk followed by a semicolon, interior chunks
also by a space. -/
def semiJoin : List (List Char) → List Char
| [] => []
| [c] => c ++ [';']
| c :: rest => c ++ ';' :: ' ' :: semiJoin rest

/-- A rational exactly representable in 32 decimal places, the precision
of the writer's float format: scaled by ten to the 32nd it is an
integer. -/
def exact32 (q : ℚ) : Prop := ∃ z : ℤ, q * ((pow32 : ℕ) : ℚ) = (z : ℚ)

/-- A string field value that survives the flat text format: free of the
semicolon, colon, comma and single-quote separators and strip-invariant
(no leading or trailing whitespace). -/
def cleanField (s : String) : Prop :=
(';' ∉ s.data) ∧ (':' ∉ s.data) ∧ (',' ∉ s.data) ∧ ('\'' ∉ s.data) ∧
pyStrip s.data = s.data

instance (s : String) : Decidable (cleanField s) :=
inferInstanceAs (Decidable (_ ∧ _ ∧ _ ∧ _ ∧ _))

/-- A resource identifier that survives the flat text format: free of
semicolons, with no colon-space pair (a bare colon is harmless, the
reader splits only on colon-space), and strip-invariant. -/
def cleanResource (s : String) : Prop :=
(';' ∉ s.data) ∧ splitColonSpaceFirst s.data = none ∧ pyStrip s.data = s.data

instance (s : String) : Decidable (cleanResource s) :=
inferInstanceAs (Decidable (_ ∧ _ ∧ _))

/-- The conditions on a written field value under which the reader's key
and value extraction recover it exactly: no colon-space pair, invariance
under strip, and no semicolon. -/
def chunkVal (v : List Char) : Prop :=
splitColonSpaceFirst v = none ∧ pyStrip v = v ∧ ';' ∉ v

/-- All string-valued fields of a detection are clean for the flat text
format. -/
def detClean (d : Detection) : Prop :=
cleanField d.template_name ∧ cleanField d.threshold_type ∧
cleanField d.typeofdet ∧ cleanField d.id ∧
(∀ c ∈ d.chans, cleanField c) ∧
(∀ e, d.event = some e → cleanResource e.resource_id)

instance (d : Detection) : Decidable (detClean d) :=
inferInstanceAs (Decidable (_ ∧ _ ∧ _ ∧ _ ∧ _ ∧ _))

/-- The detection produced by reading back one written line against an
empty reference catalog: every scalar field reproduced, and the event
synthesized from the template (the constructor sees no event field, so
the synthesis runs on the detection without one). -/
def decodedForm (t : Template) (d : Detection) : Detection :=
{ d with event := some (calculateEvent t { d with event := none } true true) }

/-- The last slash-separated component of an event resource identifier,
as compared by the reader's event resolution. -/
def lastResourceComponent (e : Event) : List Char :=
(splitOnChar '/' e.resource_id.data).getLastD []

/-! Concrete fixtures used by the witness and counterexample theorems. -/

/-- Witness template named a. -/
def wTmplA : Template :=
{ name := "a", prepick := 1, samp_rate := 100, st := [1, 2], refPicks := [2] }

/-- A template with the same name as the witness template but different
parameters: a distinct template identity under full equality. -/
def wTmplB : Template :=
{ name := "a", prepick := 2, samp_rate := 100, st := [1, 2], refPicks := [2] }

/-- Witness event carried by a stored detection. -/
def wEvE : Event :=
{ resource_id := "smi:local/ev1", originEstimated := false, picks := [] }

/-- An event whose identifier matches no written reference. -/
def wEvOther : Event :=
{ resource_id := "smi:local/evOTHER", originEstimated := false, picks := [] }

/-- Witness detection for template a; its float fields are integral so
that concrete computations reduce without rational normalization. -/
def wDetA : Detection :=
{ template_name := "a"
  detect_time := 5
  no_chans := 8
  detect_val := 4
  threshold := 1
  threshold_type := "MAD"
  threshold_input := 8
  typeofdet := "corr"
  event := none
  chans := []
  id := "a_5" }

/-- A detection made by a different template. -/
def wDetB : Detection :=
{ wDetA with template_name := "b", id := "b_5" }

/-- A detection with the same detect_time as the witness detection but a
different channel count: a distinct value at an equal time. -/
def wDetB2 : Detection :=
{ wDetA with no_chans := 9, id := "a_5b" }

/-- A detection carrying an attached event, used by the serializer
claims. -/
def wDetE : Detection :=
{ wDetA with event := some wEvE, chans := ["NZ.ST1..HHZ"], id := "a_5e" }

/-- A detection at a later time than the witness detection. -/
def wDetT7 : Detection :=
{ wDetA with detect_time := 7, id := "a_7" }

/-- A detection with fractional threshold fields, exactly representable
in the 32-place float format: the round-trip witness detection. -/
def wDetF : Detection :=
{ wDetA with
  detect_val := 21/5
  threshold := 6/5
  event := some wEvE
  chans := ["NZ.ST1..HHZ"]
  id := "a_5f" }

/-- Witness family for the round-trip claim: one detection whose float
fields are exactly representable in the 32-place format. -/
def wFamF : Family :=
{ template := wTmplA, detections := [wDetF], catalogCache := [] }

/-- Witness family over template a with no detections. -/
def wFamA : Family := (familyInit wTmplA [] none).1

/-- Witness family over the other template identity with no
detections. -/
def wFamB : Family := (familyInit wTmplB [] none).1

/-- The combined family that appending the witness detection to the
witness family produces. -/
def wFamC : Family :=
{ wFamA with
  detections := wFamA.detections ++ [wDetA]
  catalogCache := wFamA.catalogCache ++ get_catalog [wDetA] }

/-- Witness family with two detections carrying events, for the
write-back claim. -/
def wFamL : Family :=
(familyInit wTmplA
  [ { wDetA with event := some wEvE }
  , { wDetA with detect_time := 7, id := "a_7", event := some wEvE } ] none).1

/-- Witness refiner output: one refined event for the first detection of
the write-back witness family. -/
def wPicked : List (String × Event) :=
[ ("a_5",
   { resource_id := "ref1", originEstimated := false,
     picks := [{ waveform_id := "NZ.ST1..HHZ", time := 6 }] }) ]

/-! Supporting lemmas about the embedded operations. -/

theorem get_catalog_length (dets : List Detection) :
    (get_catalog dets).length = dets.length := by
  simp [get_catalog]

theorem catalogRead_detections (f : Family) :
    (catalogRead f).2.detections = f.detections := by
  unfold catalogRead
  split <;> rfl

theorem catalogRead_template (f : Family) :
    (catalogRead f).2.template = f.template := by
  unfold catalogRead
  split <;> rfl

theorem detEq_refl (tol : ℚ) (htol : 0 ≤ tol) (d : Detection) :
    detEq tol d d = true := by
  simp [detEq, htol]

/-! Claim theorems, in claim order. -/

/-- C1, counterexample: Family.append is not the mutating combine.  At a
concrete family and a valid detection operand, the append call leaves the
receiver in its original state and returns a new combined family, while
the += statement rebinds the receiver to the combined family; the two
effects differ because the combined family is not the original one. -/
theorem C1_append_counterexample :
    wDetA.template_name = wFamA.template.name ∧
    famAppendEffect wFamA (.det wDetA) = .ok (wFamA, wFamC) ∧
    famIaddEffect wFamA (.det wDetA) = .ok (wFamC, wFamC) ∧
    wFamA ≠ wFamC :=
⟨by decide, by rfl, by rfl, by decide⟩

/-- C1, amended: Family.append is an alias for the non-mutating combine:
whenever append succeeds it returns exactly the family that += would
produce, while the receiver itself is left unchanged. -/
theorem C1_append_is_nonmutating_combine (f : Family) (x : FamOperand)
    (g r : Family) (h : famAppendEffect f x = .ok (g, r)) :
    g = f ∧ famIadd f x = .ok r := by
  unfold famAppendEffect famAddEffect at h
  cases hx : famIadd f x with
  | error e => rw [hx] at h; exact absurd h (by simp [Except.map])
  | ok v =>
    rw [hx] at h
    simp only [Except.map, Except.ok.injEq, Prod.mk.injEq] at h
    obtain ⟨h1, h2⟩ := h
    subst h2
    exact ⟨h1.symm, rfl⟩

/-- Witness for the amended C1 theorem at a concrete input. -/
theorem C1_append_is_nonmutating_combine_witness :
    wFamA = wFamA ∧ famIadd wFamA (.det wDetA) = .ok wFamC :=
C1_append_is_nonmutating_combine wFamA (.det wDetA) wFamA wFamC (by rfl)

/-- C2: the mutating combine requires full template equality for a Family
operand (failing with the templates-do-not-match error for every pair of
distinct template identities, empty families included, since the check
never looks at the detections), appends all of the operand detections on
success, and requires a matching template name for a Detection operand. -/
theorem C2_combine_requires_matching_templates (a : Family) :
    (∀ b : Family,
      (a.template ≠ b.template →
        famIadd a (.fam b) = .error ("Templates do not match")) ∧
      (a.template = b.template →
        famIadd a (.fam b) =
          .ok { a with
                detections := a.detections ++ b.detections
                catalogCache := a.catalogCache ++ get_catalog b.detections })) ∧
    (∀ d : Detection, d.template_name ≠ a.template.name →
      famIadd a (.det d) = .error ("Templates do not match")) := by
  refine ⟨fun b => ⟨fun h => ?_, fun h => ?_⟩, fun d hd => ?_⟩
  · simp only [famIadd]
    rw [if_neg (fun hh => h hh.symm)]
  · simp only [famIadd]
    rw [if_pos h.symm]
  · simp only [famIadd]
    rw [if_neg hd]

/-- Witness for C2 at concrete inputs: two empty families whose templates
share a name but differ in parameters fail to combine, and a detection of
another template fails the same way. -/
theorem C2_combine_requires_matching_templates_witness :
    (wFamA.detections = [] ∧ wFamB.detections = [] ∧
     wFamA.template ≠ wFamB.template ∧
     famIadd wFamA (.fam wFamB) = .error ("Templates do not match")) ∧
    (wDetB.template_name ≠ wFamA.template.name ∧
     famIadd wFamA (.det wDetB) = .error ("Templates do not match")) :=
⟨⟨by decide, by decide, by decide,
  ((C2_combine_requires_matching_templates wFamA).1 wFamB).1 (by decide)⟩,
 ⟨by decide,
  (C2_combine_requires_matching_templates wFamA).2 wDetB (by decide)⟩⟩

/-- C3, counterexample: the constructor performs no template-name check,
so a Family violating the invariant is reachable without any error: the
constructor silently stores a detection of another template. -/
theorem C3_constructor_unchecked_counterexample :
    wDetB.template_name ≠ wTmplA.name ∧
    (familyInit wTmplA [wDetB] none).1.detections = [wDetB] ∧
    ¬ famInv (familyInit wTmplA [wDetB] none).1 := by
  decide

/-- C3, amended: the invariant is enforced only by the combine
operations: extending with a mismatched single Detection raises, a
successful Detection extension preserves the invariant, and a successful
Family extension preserves it provided the operand itself satisfies it;
the constructor performs no check. -/
theorem C3_invariant_enforced_only_by_combine (f : Family) (hf : famInv f) :
    (∀ d : Detection, d.template_name ≠ f.template.name →
      famIadd f (.det d) = .error ("Templates do not match")) ∧
    (∀ d g, famIadd f (.det d) = .ok g → famInv g) ∧
    (∀ b g, famInv b → famIadd f (.fam b) = .ok g → famInv g) := by
  refine ⟨fun d hd => ?_, fun d g hg => ?_, fun b g hb hg => ?_⟩
  · simp only [famIadd]
    rw [if_neg hd]
  · simp only [famIadd] at hg
    by_cases hname : d.template_name = f.template.name
    · rw [if_pos hname] at hg
      cases hg
      intro x hx
      rcases List.mem_append.mp hx with hx1 | hx2
      · exact hf x hx1
      · rcases List.mem_singleton.mp hx2 with rfl
        exact hname
    · rw [if_neg hname] at hg
      cases hg
  · simp only [famIadd] at hg
    by_cases htpl : b.template = f.template
    · rw [if_pos htpl] at hg
      cases hg
      intro x hx
      rcases List.mem_append.mp hx with hx1 | hx2
      · exact hf x hx1
      · rw [hb x hx2, htpl]
    · rw [if_neg htpl] at hg
      cases hg

/-- Witness for the amended C3 theorem at concrete inputs. -/
theorem C3_invariant_enforced_only_by_combine_witness :
    famIadd wFamA (.det wDetB) = .error ("Templates do not match") ∧
    famInv wFamC :=
⟨(C3_invariant_enforced_only_by_combine wFamA (by decide)).1 wDetB (by decide),
 (C3_invariant_enforced_only_by_combine wFamA (by decide)).2.1 wDetA wFamC (by rfl)⟩

/-- C4: reading the catalog property always returns a catalog whose
length equals the detection count; the cached catalog is reused exactly
when its length matches and recomputed exactly when it diverges; and
every successful mutating combine extends the cache so that an in-sync
cache stays in sync. -/
theorem C4_catalog_length_in_sync (f : Family) :
    ((catalogRead f).1.length = f.detections.length) ∧
    (f.catalogCache.length = f.detections.length →
      catalogRead f = (f.catalogCache, f)) ∧
    (f.catalogCache.length ≠ f.detections.length →
      (catalogRead f).1 = get_catalog f.detections) ∧
    (∀ x g, famIadd f x = .ok g →
      f.catalogCache.length = f.detections.length →
      g.catalogCache.length = g.detections.length) := by
  refine ⟨?_, fun h => ?_, fun h => ?_, fun x g hg hsync => ?_⟩
  · unfold catalogRead
    split
    · exact get_catalog_length f.detections
    · next h2 => exact not_ne_iff.mp h2
  · unfold catalogRead
    rw [if_neg (not_ne_iff.mpr h)]
  · unfold catalogRead
    rw [if_pos h]
  · cases x with
    | fam o =>
      simp only [famIadd] at hg
      by_cases htpl : o.template = f.template
      · rw [if_pos htpl] at hg
        cases hg
        simp [get_catalog_length, hsync]
      · rw [if_neg htpl] at hg
        cases hg
    | det d =>
      simp only [famIadd] at hg
      by_cases hname : d.template_name = f.template.name
      · rw [if_pos hname] at hg
        cases hg
        simp [get_catalog_length, hsync]
      · rw [if_neg hname] at hg
        cases hg
    | unsupported => cases hg

/-- Witness for C4 at concrete inputs: an in-sync family reuses its
cache, and a successful combine leaves the result in sync. -/
theorem C4_catalog_length_in_sync_witness :
    catalogRead wFamC = (wFamC.catalogCache, wFamC) ∧
    wFamC.catalogCache.length = wFamC.detections.length :=
⟨(C4_catalog_length_in_sync wFamC).2.1 (by decide),
 (C4_catalog_length_in_sync wFamA).2.2.2 (.det wDetA) wFamC (by rfl) (by decide)⟩

/-- C8, counterexample: supplying a catalog argument at construction does
not fail: the constructor completes normally, discards the supplied
catalog (the cache is derived from the detections, here empty), and only
records a warning. -/
theorem C8_constructor_catalog_ignored_counterexample :
    familyInit wTmplA [] (some [wEvOther]) =
      ({ template := wTmplA, detections := [], catalogCache := [] },
       [catalogWarning]) := by
  rfl

/-- C8, amended: assignment to the catalog attribute always raises, while
supplying a catalog argument at construction is silently ignored apart
from a logged warning: the constructed family is identical to the one
built without the argument. -/
theorem C8_catalog_not_settable (f : Family) (c : List Event)
    (t : Template) (dets : List Detection) (cat : List Event) :
    catalogSet f c = .error ("Setting catalog directly is no-longer supported") ∧
    (familyInit t dets (some cat)).1 = (familyInit t dets none).1 := by
  constructor
  · rfl
  · simp only [familyInit]
    split <;> rfl

theorem sortDets_pair (A B : Detection) :
    sortDets [A, B] = if detLe A B then [A, B] else [B, A] := by
  simp [sortDets, List.insertionSort, List.orderedInsert]

theorem zip_self_eq {α : Type} (l : List α) : ∀ p ∈ l.zip l, p.1 = p.2 := by
  induction l with
  | nil => intro p hp; simp at hp
  | cons x xs ih =>
    intro p hp
    rcases List.mem_cons.mp hp with rfl | hp2
    · rfl
    · exact ih p hp2

theorem pairwiseDetEq_self (tol : ℚ) (htol : 0 ≤ tol) (l : List Detection) :
    pairwiseDetEq tol l l = true := by
  unfold pairwiseDetEq
  rw [List.all_eq_true]
  intro p hp
  rw [zip_self_eq l p hp]
  exact detEq_refl tol htol p.2

/-- C10: the == comparison is not side-effect-free: with equal templates
and equal non-zero detection counts it sorts both operands in place, and
afterwards both detection collections are the stable sort of the
originals, ascending by detect_time (a permutation of what was there). -/
theorem C10_eq_comparison_sorts_operands (tol : ℚ) (a b : Family)
    (ht : a.template = b.template)
    (hlen : a.detections.length = b.detections.length)
    (hnz : a.detections.length ≠ 0) :
    ((famEqRun tol a b).2.1.detections = sortDets a.detections ∧
     (famEqRun tol a b).2.2.detections = sortDets b.detections) ∧
    (sortDets a.detections).Sorted detLe ∧
    (sortDets b.detections).Sorted detLe ∧
    List.Perm (sortDets a.detections) a.detections ∧
    List.Perm (sortDets b.detections) b.detections := by
  have hbnz : b.detections.length ≠ 0 := by omega
  refine ⟨?_, List.sorted_insertionSort detLe _, List.sorted_insertionSort detLe _,
    List.perm_insertionSort detLe _, List.perm_insertionSort detLe _⟩
  unfold famEqRun
  rw [if_pos ht, if_pos hlen, if_pos ⟨hnz, hbnz⟩]
  by_cases hp : pairwiseDetEq tol (famSort a).detections (famSort b).detections
  · rw [if_pos hp]
    exact ⟨by rw [catalogRead_detections]; rfl, by rw [catalogRead_detections]; rfl⟩
  · rw [if_neg hp]
    exact ⟨rfl, rfl⟩

/-- Witness for C10 at a concrete input: comparing a two-detection family
with itself sorts its detection list. -/
theorem C10_eq_comparison_sorts_operands_witness :
    (((famEqRun 0 wFamL wFamL).2.1.detections = sortDets wFamL.detections ∧
      (famEqRun 0 wFamL wFamL).2.2.detections = sortDets wFamL.detections) ∧
     (sortDets wFamL.detections).Sorted detLe ∧
     (sortDets wFamL.detections).Sorted detLe ∧
     List.Perm (sortDets wFamL.detections) wFamL.detections ∧
     List.Perm (sortDets wFamL.detections) wFamL.detections) :=
C10_eq_comparison_sorts_operands 0 wFamL wFamL rfl rfl (by decide)

/-- C5, counterexample: equality is not order-insensitive when two
distinct detections share a detect_time: the stable sort leaves both
insertion orders as they are and the pairwise comparison fails, although
both families hold the same multiset of detections. -/
theorem C5_equal_times_counterexample :
    wDetA.template_name = wTmplA.name ∧ wDetB2.template_name = wTmplA.name ∧
    wDetA.detect_time = wDetB2.detect_time ∧ wDetA ≠ wDetB2 ∧
    famEqBool 0 (familyInit wTmplA [wDetA, wDetB2] none).1
      (familyInit wTmplA [wDetB2, wDetA] none).1 = false := by
  refine ⟨by decide, by decide, by decide, by decide, by decide⟩

theorem sortDets_length (l : List Detection) :
    (sortDets l).length = l.length :=
(List.perm_insertionSort detLe l).length_eq

theorem famEqRun_eval_true (tol : ℚ) (t : Template) (l1 l2 : List Detection)
    (c1 c2 : List Event)
    (hlen : l1.length = l2.length) (hnz : l1.length ≠ 0)
    (hp : pairwiseDetEq tol (sortDets l1) (sortDets l2) = true)
    (hc1 : c1.length = l1.length) (hc2 : c2.length = l2.length) :
    famEqRun tol ⟨t, l1, c1⟩ ⟨t, l2, c2⟩ =
      (true, ⟨t, sortDets l1, c1⟩, ⟨t, sortDets l2, c2⟩) := by
  unfold famEqRun
  rw [if_pos (show (⟨t, l1, c1⟩ : Family).template = (⟨t, l2, c2⟩ : Family).template from rfl)]
  rw [if_pos (show (⟨t, l1, c1⟩ : Family).detections.length =
    (⟨t, l2, c2⟩ : Family).detections.length from hlen)]
  rw [if_pos (show (⟨t, l1, c1⟩ : Family).detections.length ≠ 0 ∧
    (⟨t, l2, c2⟩ : Family).detections.length ≠ 0 from ⟨hnz, hlen ▸ hnz⟩)]
  have hfs1 : famSort ⟨t, l1, c1⟩ = ⟨t, sortDets l1, c1⟩ := rfl
  have hfs2 : famSort ⟨t, l2, c2⟩ = ⟨t, sortDets l2, c2⟩ := rfl
  rw [hfs1, hfs2]
  dsimp only
  rw [hp, if_pos rfl]
  have hcr1 : catalogRead ⟨t, sortDets l1, c1⟩ = (c1, ⟨t, sortDets l1, c1⟩) := by
    unfold catalogRead
    rw [if_neg (not_ne_iff.mpr
      (show (⟨t, sortDets l1, c1⟩ : Family).catalogCache.length =
        (⟨t, sortDets l1, c1⟩ : Family).detections.length
        from by rw [show (⟨t, sortDets l1, c1⟩ : Family).catalogCache = c1 from rfl,
          show (⟨t, sortDets l1, c1⟩ : Family).detections = sortDets l1 from rfl,
          sortDets_length, hc1]))]
  have hcr2 : catalogRead ⟨t, sortDets l2, c2⟩ = (c2, ⟨t, sortDets l2, c2⟩) := by
    unfold catalogRead
    rw [if_neg (not_ne_iff.mpr
      (show (⟨t, sortDets l2, c2⟩ : Family).catalogCache.length =
        (⟨t, sortDets l2, c2⟩ : Family).detections.length
        from by rw [show (⟨t, sortDets l2, c2⟩ : Family).catalogCache = c2 from rfl,
          show (⟨t, sortDets l2, c2⟩ : Family).detections = sortDets l2 from rfl,
          sortDets_length, hc2]))]
  rw [hcr1, hcr2]
  have : decide (c1.length = c2.length) = true := by
    rw [hc1, hc2, hlen]
    simp
  rw [show ((c1, (⟨t, sortDets l1, c1⟩ : Family)).1 : List Event) = c1 from rfl,
    show ((c2, (⟨t, sortDets l2, c2⟩ : Family)).1 : List Event) = c2 from rfl]
  rw [this]

/-- C5, amended: a family built from two detections equals the one built
from the two in the other order whenever their detect_times differ (the
sort then produces the same canonical order on both sides); with equal
times the comparison may fail, as the counterexample shows. -/
theorem C5_order_insensitive_for_distinct_times (tol : ℚ) (htol : 0 ≤ tol)
    (t : Template) (A B : Detection)
    (_hA : A.template_name = t.name) (_hB : B.template_name = t.name)
    (htime : A.detect_time ≠ B.detect_time) :
    famEqBool tol (familyInit t [A, B] none).1 (familyInit t [B, A] none).1 = true := by
  have hAB : (familyInit t [A, B] none).1 =
      ⟨t, [A, B], get_catalog [A, B]⟩ := rfl
  have hBA : (familyInit t [B, A] none).1 =
      ⟨t, [B, A], get_catalog [B, A]⟩ := rfl
  have hsAB : sortDets [A, B] = sortDets [B, A] := by
    rw [sortDets_pair, sortDets_pair]
    rcases lt_or_gt_of_ne htime with hlt | hgt
    · rw [if_pos (show detLe A B from le_of_lt hlt),
        if_neg (show ¬ detLe B A from not_le_of_lt hlt)]
    · rw [if_neg (show ¬ detLe A B from not_le_of_lt hgt),
        if_pos (show detLe B A from le_of_lt hgt)]
  rw [famEqBool, hAB, hBA]
  rw [famEqRun_eval_true tol t [A, B] [B, A] (get_catalog [A, B]) (get_catalog [B, A])
    (by simp) (by simp) (by rw [hsAB]; exact pairwiseDetEq_self tol htol _)
    (get_catalog_length [A, B]) (get_catalog_length [B, A])]

/-- Witness for the amended C5 theorem at a concrete input: the two
insertion orders of two detections at distinct times compare equal. -/
theorem C5_order_insensitive_for_distinct_times_witness :
    famEqBool 0 (familyInit wTmplA [wDetA, wDetT7] none).1
      (familyInit wTmplA [wDetT7, wDetA] none).1 = true :=
C5_order_insensitive_for_distinct_times 0 le_rfl wTmplA wDetA wDetT7
  (by decide) (by decide) (by decide)

/-! Lemmas for the lag_calc write-back loop. -/

theorem updElem_id (i : String) (p : List Pick) (d : Detection) :
    (updElem i p d).id = d.id := by
  unfold updElem
  split <;> rfl

theorem updElem_isSome (i : String) (p : List Pick) (d : Detection) :
    (updElem i p d).event.isSome = d.event.isSome := by
  unfold updElem
  split
  · simp
  · rfl

theorem updElem_of_ne (i : String) (p : List Pick) (d : Detection)
    (h : d.id ≠ i) : updElem i p d = d := by
  unfold updElem
  rw [if_neg h]

theorem updOne_of_none (i : String) (p : List Pick) (dets : List Detection)
    (h : ∀ d ∈ dets, d.id ≠ i) : updOne i p dets = dets := by
  unfold updOne
  exact (List.map_congr_left (fun d hd => updElem_of_ne i p d (h d hd))).trans
    (List.map_id dets)

theorem updOne_ids (i : String) (p : List Pick) (dets : List Detection) :
    (updOne i p dets).map (fun d => d.id) = dets.map (fun d => d.id) := by
  unfold updOne
  rw [List.map_map]
  exact List.map_congr_left (fun d _ => updElem_id i p d)

theorem applyPicked_eq_updOne (k : String) (p : List Pick) :
    ∀ (dets : List Detection),
    (dets.map (fun d => d.id)).Nodup →
    (∃ d ∈ dets, d.id = k ∧ d.event.isSome) →
    applyPicked k p dets = .ok (updOne k p dets) := by
  intro dets
  induction dets with
  | nil => intro _ hex; simp at hex
  | cons d rest ih =>
    intro hnd hex
    rw [List.map_cons, List.nodup_cons] at hnd
    by_cases hd : d.id = k
    · have hsome : d.event.isSome := by
        obtain ⟨w, hw, hwk, hws⟩ := hex
        rcases List.mem_cons.mp hw with rfl | hwr
        · exact hws
        · exact absurd (by rw [hd, ← hwk]; exact List.mem_map_of_mem _ hwr) hnd.1
      obtain ⟨ev, hev⟩ := Option.isSome_iff_exists.mp hsome
      have hrest : ∀ x ∈ rest, x.id ≠ k := by
        intro x hx hxk
        exact hnd.1 (by rw [hd, ← hxk]; exact List.mem_map_of_mem _ hx)
      unfold applyPicked
      rw [if_pos hd, hev]
      unfold updOne
      rw [List.map_cons]
      rw [show updElem k p d =
        { d with event := some { ev with picks := p } } from by
          unfold updElem; rw [if_pos hd, hev]; rfl]
      rw [show rest.map (updElem k p) = rest from
        (List.map_congr_left (fun x hx => updElem_of_ne k p x (hrest x hx))).trans
          (List.map_id rest)]
    · have hex2 : ∃ w ∈ rest, w.id = k ∧ w.event.isSome := by
        obtain ⟨w, hw, hwk, hws⟩ := hex
        rcases List.mem_cons.mp hw with rfl | hwr
        · exact absurd hwk hd
        · exact ⟨w, hwr, hwk, hws⟩
      unfold applyPicked
      rw [if_neg hd, ih hnd.2 hex2]
      unfold updOne
      rw [List.map_cons, updElem_of_ne k p d hd]
      rfl

theorem assocFind_nil (i : String) : assocFind [] i = none := rfl

theorem assocFind_cons (k : String) (ev : Event)
    (rest : List (String × Event)) (i : String) :
    assocFind ((k, ev) :: rest) i =
      if k = i then some ev else assocFind rest i := by
  unfold assocFind
  rw [List.find?]
  by_cases h : k = i
  · rw [if_pos h]
    simp [h]
  · rw [if_neg h]
    simp [h]

theorem assocFind_of_mem (picked : List (String × Event)) (pr : String × Event)
    (hkeys : (picked.map Prod.fst).Nodup) (hpr : pr ∈ picked) :
    assocFind picked pr.1 = some pr.2 := by
  induction picked with
  | nil => simp at hpr
  | cons q tail ih =>
    obtain ⟨qk, qe⟩ := q
    rw [List.map_cons, List.nodup_cons] at hkeys
    rcases List.mem_cons.mp hpr with rfl | htail
    · rw [assocFind_cons, if_pos rfl]
    · rw [assocFind_cons, if_neg ?_, ih hkeys.2 htail]
      intro hqk
      apply hkeys.1
      rw [show ((qk, qe).1 : String) = qk from rfl, hqk]
      exact List.mem_map_of_mem Prod.fst htail

theorem assocFind_of_not_mem (rest : List (String × Event)) (i : String)
    (h : i ∉ rest.map Prod.fst) : assocFind rest i = none := by
  induction rest with
  | nil => rfl
  | cons pr tail ih =>
    obtain ⟨k, ev⟩ := pr
    rw [List.map_cons, List.mem_cons] at h
    push_neg at h
    rw [assocFind_cons, if_neg (fun hh => h.1 hh.symm), ih h.2]

theorem lagCalcElem_nil (t : Template) (d : Detection) :
    lagCalcElem t [] d = d := rfl

theorem lagCalcElem_not_mem (t : Template) (picked : List (String × Event))
    (d : Detection) (h : d.id ∉ picked.map Prod.fst) :
    lagCalcElem t picked d = d := by
  unfold lagCalcElem
  rw [assocFind_of_not_mem picked d.id h]

theorem lagCalcElem_cons (t : Template) (k : String) (ev : Event)
    (rest : List (String × Event)) (d : Detection)
    (hk : k ∉ rest.map Prod.fst) :
    lagCalcElem t ((k, ev) :: rest) d =
      lagCalcElem t rest (updElem k (shiftPicks t.prepick ev.picks) d) := by
  by_cases hd : d.id = k
  · rw [show updElem k (shiftPicks t.prepick ev.picks) d =
        { d with event := Option.map (fun e => { e with picks := shiftPicks t.prepick ev.picks }) d.event } from by
        unfold updElem; rw [if_pos hd]]
    rw [lagCalcElem_not_mem t rest _ (by
      rw [show ({ d with event := Option.map (fun e => { e with picks := shiftPicks t.prepick ev.picks }) d.event } :
          Detection).id = d.id from rfl, hd]
      exact hk)]
    unfold lagCalcElem
    rw [assocFind_cons, if_pos hd.symm]
  · rw [updElem_of_ne k _ d hd]
    unfold lagCalcElem
    rw [assocFind_cons, if_neg (fun hh => hd hh.symm)]

theorem lagCalcExpected_nil (t : Template) (dets : List Detection) :
    lagCalcExpected t [] dets = dets := by
  unfold lagCalcExpected
  exact (List.map_congr_left (fun d _ => lagCalcElem_nil t d)).trans
    (List.map_id dets)

theorem lagCalcExpected_cons (t : Template) (k : String) (ev : Event)
    (rest : List (String × Event)) (dets : List Detection)
    (hk : k ∉ rest.map Prod.fst) :
    lagCalcExpected t ((k, ev) :: rest) dets =
      lagCalcExpected t rest (updOne k (shiftPicks t.prepick ev.picks) dets) := by
  unfold lagCalcExpected updOne
  rw [List.map_map]
  exact List.map_congr_left (fun d _ => lagCalcElem_cons t k ev rest d hk)

theorem lagCalcApply_eval (t : Template) (cc : List Event) :
    ∀ (picked : List (String × Event)) (dets : List Detection),
    (dets.map (fun d => d.id)).Nodup →
    (picked.map Prod.fst).Nodup →
    (∀ pr ∈ picked, ∃ d ∈ dets, d.id = pr.1 ∧ d.event.isSome) →
    lagCalcApply ⟨t, dets, cc⟩ picked =
      .ok ⟨t, lagCalcExpected t picked dets, cc⟩ := by
  intro picked
  induction picked with
  | nil =>
    intro dets _ _ _
    rw [lagCalcExpected_nil]
    rfl
  | cons pr rest ih =>
    intro dets hids hkeys hmatch
    obtain ⟨k, ev⟩ := pr
    rw [List.map_cons, List.nodup_cons] at hkeys
    unfold lagCalcApply
    rw [List.foldlM_cons]
    have hstep := applyPicked_eq_updOne k (shiftPicks t.prepick ev.picks) dets hids
      (hmatch (k, ev) (List.mem_cons_self _ _))
    dsimp only
    rw [hstep]
    have hrest : lagCalcApply
        ⟨t, updOne k (shiftPicks t.prepick ev.picks) dets, cc⟩ rest =
        .ok ⟨t, lagCalcExpected t rest
          (updOne k (shiftPicks t.prepick ev.picks) dets), cc⟩ := by
      apply ih
      · rw [updOne_ids]
        exact hids
      · exact hkeys.2
      · intro pr2 hpr2
        obtain ⟨d, hd, hdk, hds⟩ := hmatch pr2 (List.mem_cons_of_mem _ hpr2)
        refine ⟨updElem k (shiftPicks t.prepick ev.picks) d,
          List.mem_map_of_mem _ hd, ?_, ?_⟩
        · rw [updElem_id]
          exact hdk
        · rw [updElem_isSome]
          exact hds
    unfold lagCalcApply at hrest
    exact hrest.trans (by rw [lagCalcExpected_cons t k ev rest dets hkeys.1])

/-- C9: after the lag_calc write-back, under distinct detection ids and
refiner keys each matching a detection that carries an event, the loop
succeeds and produces exactly the detections in which every refined id
has its event picks replaced by the refined picks shifted once by the
template pre-pick, and every detection whose id is absent from the
refiner output is the unmodified original. -/
theorem C9_lag_calc_writeback (f : Family) (picked : List (String × Event))
    (hids : (f.detections.map (fun d => d.id)).Nodup)
    (hkeys : (picked.map Prod.fst).Nodup)
    (hmatch : ∀ pr ∈ picked, ∃ d ∈ f.detections, d.id = pr.1 ∧ d.event.isSome) :
    lagCalcApply f picked =
      .ok { f with detections := lagCalcExpected f.template picked f.detections } ∧
    (∀ d ∈ f.detections, d.id ∉ picked.map Prod.fst →
      d ∈ lagCalcExpected f.template picked f.detections) ∧
    (∀ pr ∈ picked, ∀ d ∈ f.detections, d.id = pr.1 → ∀ e, d.event = some e →
      { d with event := some { e with picks := shiftPicks f.template.prepick pr.2.picks } } ∈
        lagCalcExpected f.template picked f.detections) := by
  obtain ⟨t, dets, cc⟩ := f
  refine ⟨lagCalcApply_eval t cc picked dets hids hkeys hmatch, ?_, ?_⟩
  · intro d hd hnot
    rw [show d = lagCalcElem t picked d from
      (lagCalcElem_not_mem t picked d hnot).symm]
    exact List.mem_map_of_mem _ hd
  · intro pr hpr d hd hdk e he
    have hfind : assocFind picked d.id = some pr.2 := by
      rw [hdk]
      exact assocFind_of_mem picked pr hkeys hpr
    have helem : lagCalcElem t picked d =
        { d with event := some { e with picks := shiftPicks t.prepick pr.2.picks } } := by
      unfold lagCalcElem
      rw [hfind, he]
      rfl
    rw [← helem]
    exact List.mem_map_of_mem _ hd

/-- Witness for C9 at a concrete input: a two-detection family with one
refined detection id. -/
theorem C9_lag_calc_writeback_witness :
    lagCalcApply wFamL wPicked =
      .ok { wFamL with
            detections := lagCalcExpected wFamL.template wPicked wFamL.detections } ∧
    (∀ d ∈ wFamL.detections, d.id ∉ wPicked.map Prod.fst →
      d ∈ lagCalcExpected wFamL.template wPicked wFamL.detections) ∧
    (∀ pr ∈ wPicked, ∀ d ∈ wFamL.detections, d.id = pr.1 → ∀ e, d.event = some e →
      { d with event := some { e with picks := shiftPicks wFamL.template.prepick pr.2.picks } } ∈
        lagCalcExpected wFamL.template wPicked wFamL.detections) :=
C9_lag_calc_writeback wFamL wPicked (by decide) (by decide) (by decide)

/-! Lemmas about the character-level string operations of the
serializer. -/

theorem pyRStrip_append_space (l : List Char) :
    pyRStrip (l ++ [' ']) = pyRStrip l := by
  unfold pyRStrip
  rw [List.reverse_append]
  rfl

theorem pyRStrip_of_last_not_ws (l : List Char) (c : Char)
    (hc : isWS c = false) : pyRStrip (l ++ [c]) = l ++ [c] := by
  unfold pyRStrip
  rw [List.reverse_append]
  simp [hc]

theorem encodeDetection_eq_semiJoin (d : Detection) :
    encodeDetection d = semiJoin (detFields d) ++ [' '] := by
  unfold encodeDetection
  have h : ∀ (cs : List (List Char)) (c : List Char),
      (c :: cs).foldr (fun x acc => x ++ ';' :: ' ' :: acc) [] =
        semiJoin (c :: cs) ++ [' '] := by
    intro cs
    induction cs with
    | nil => intro c; simp [semiJoin]
    | cons x xs ih =>
      intro c
      rw [List.foldr_cons, ih x]
      rw [show semiJoin (c :: x :: xs) = c ++ ';' :: ' ' :: semiJoin (x :: xs) from rfl]
      simp
  rw [show detFields d = (detFields d).head! :: (detFields d).tail from rfl]
  exact h _ _

theorem semiJoin_ends_semi (cs : List (List Char)) (hne : cs ≠ []) :
    ∃ l, semiJoin cs = l ++ [';'] := by
  induction cs with
  | nil => exact absurd rfl hne
  | cons c rest ih =>
    cases rest with
    | nil => exact ⟨c, rfl⟩
    | cons x xs =>
      obtain ⟨l, hl⟩ := ih (by simp)
      refine ⟨c ++ ';' :: ' ' :: l, ?_⟩
      rw [show semiJoin (c :: x :: xs) = c ++ ';' :: ' ' :: semiJoin (x :: xs) from rfl, hl]
      simp

theorem pyRStrip_encodeDetection (d : Detection) :
    pyRStrip (encodeDetection d) = semiJoin (detFields d) := by
  rw [encodeDetection_eq_semiJoin, pyRStrip_append_space]
  obtain ⟨l, hl⟩ := semiJoin_ends_semi (detFields d) (by unfold detFields; simp)
  rw [hl]
  exact pyRStrip_of_last_not_ws l ';' (by decide)

theorem splitOnChar_cons_of_ne (c a : Char) (l : List Char) (h : a ≠ c)
    (hd : List Char) (tl : List (List Char))
    (hs : splitOnChar c l = hd :: tl) :
    splitOnChar c (a :: l) = (a :: hd) :: tl := by
  unfold splitOnChar
  rw [if_neg h, hs]

theorem splitOnChar_of_not_mem (c : Char) (l : List Char) (h : c ∉ l) :
    splitOnChar c l = [l] := by
  induction l with
  | nil => rfl
  | cons x xs ih =>
    rw [List.mem_cons] at h
    push_neg at h
    exact splitOnChar_cons_of_ne c x xs (fun hh => h.1 hh.symm) xs [] (ih h.2)

theorem splitOnChar_append (c : Char) (xs ys : List Char) (h : c ∉ xs) :
    splitOnChar c (xs ++ c :: ys) = xs :: splitOnChar c ys := by
  induction xs with
  | nil =>
    rw [List.nil_append]
    conv_lhs => rw [splitOnChar]
    rw [if_pos rfl]
  | cons a rest ih =>
    rw [List.mem_cons] at h
    push_neg at h
    rw [List.cons_append]
    exact splitOnChar_cons_of_ne c a (rest ++ c :: ys)
      (fun hh => h.1 hh.symm) rest (splitOnChar c ys) (ih h.2)

theorem splitOnChar_semiJoin (cs : List (List Char)) :
    ∀ (c0 : List Char), ';' ∉ c0 → (∀ x ∈ cs, ';' ∉ x) →
    splitOnChar ';' (semiJoin (c0 :: cs)) =
      c0 :: (cs.map (fun x => ' ' :: x) ++ [[]]) := by
  induction cs with
  | nil =>
    intro c0 h0 _
    rw [show semiJoin [c0] = c0 ++ ';' :: [] from by simp [semiJoin]]
    rw [splitOnChar_append ';' c0 [] h0]
    rfl
  | cons x xs ih =>
    intro c0 h0 h
    rw [show semiJoin (c0 :: x :: xs) = c0 ++ ';' :: (' ' :: semiJoin (x :: xs)) from rfl]
    rw [splitOnChar_append ';' c0 _ h0]
    have hx := ih x (h x (List.mem_cons_self _ _))
      (fun y hy => h y (List.mem_cons_of_mem _ hy))
    rw [splitOnChar_cons_of_ne ';' ' ' (semiJoin (x :: xs)) (by decide)
      x (xs.map (fun y => ' ' :: y) ++ [[]]) hx]
    rfl

/-! Key and value extraction of the reader. -/

theorem splitColonSpaceFirst_of_no_colon (l : List Char) (h : ':' ∉ l) :
    splitColonSpaceFirst l = none := by
  induction l with
  | nil => rfl
  | cons x xs ih =>
    rw [List.mem_cons] at h
    push_neg at h
    unfold splitColonSpaceFirst
    rw [if_neg (fun hc => h.1 hc.1.symm), ih h.2]
    rfl

theorem splitColonSpaceFirst_append (pre v : List Char) (h : ':' ∉ pre) :
    splitColonSpaceFirst (pre ++ ':' :: ' ' :: v) = some (pre, v) := by
  induction pre with
  | nil =>
    rw [List.nil_append]
    unfold splitColonSpaceFirst
    rw [if_pos ⟨rfl, rfl⟩]
    rfl
  | cons a rest ih =>
    rw [List.mem_cons] at h
    push_neg at h
    rw [List.cons_append]
    unfold splitColonSpaceFirst
    rw [if_neg (fun hc => h.1 hc.1.symm), ih h.2]
    rfl

theorem lastColonSpacePart_none (fuel : ℕ) (v : List Char)
    (hv : splitColonSpaceFirst v = none) :
    lastColonSpacePart fuel v = v := by
  cases fuel with
  | zero => rfl
  | succ f =>
    unfold lastColonSpacePart
    rw [hv]

theorem lastColonSpacePart_some (fuel : ℕ) (l p v : List Char)
    (hl : splitColonSpaceFirst l = some (p, v))
    (hv : splitColonSpaceFirst v = none) (hf : fuel ≠ 0) :
    lastColonSpacePart fuel l = v := by
  cases fuel with
  | zero => exact absurd rfl hf
  | succ f =>
    unfold lastColonSpacePart
    rw [hl]
    exact lastColonSpacePart_none f v hv

theorem dropWhile_of_head_false {p : Char → Bool} (v : List Char)
    (h : ∀ c, v.head? = some c → p c = false) :
    List.dropWhile p v = v := by
  cases v with
  | nil => rfl
  | cons x xs => simp [List.dropWhile_cons, h x rfl]

theorem pyStrip_of_bounds (v : List Char)
    (h1 : ∀ c, v.head? = some c → isWS c = false)
    (h2 : ∀ c, v.getLast? = some c → isWS c = false) :
    pyStrip v = v := by
  unfold pyStrip
  rw [dropWhile_of_head_false v h1]
  rw [dropWhile_of_head_false v.reverse (fun c hc => h2 c (by rwa [List.head?_reverse] at hc))]
  exact List.reverse_reverse v

theorem pyStrip_of_no_ws (v : List Char) (h : ∀ c ∈ v, isWS c = false) :
    pyStrip v = v :=
pyStrip_of_bounds v
  (fun c hc => h c (by cases v with
    | nil => simp at hc
    | cons x xs => rw [List.head?_cons, Option.some.injEq] at hc; rw [← hc]; exact List.mem_cons_self _ _))
  (fun c hc => h c (by
    rw [← List.head?_reverse] at hc
    rw [← List.mem_reverse]
    cases hr : v.reverse with
    | nil => rw [hr] at hc; simp at hc
    | cons x xs =>
      rw [hr, List.head?_cons, Option.some.injEq] at hc
      rw [← hc]
      exact List.mem_cons_self _ _))

theorem dropWhile_append_of_all {p : Char → Bool} (xs ys : List Char)
    (h : ∀ x ∈ xs, p x = true) :
    List.dropWhile p (xs ++ ys) = List.dropWhile p ys := by
  induction xs with
  | nil => rfl
  | cons a rest ih =>
    rw [List.cons_append]
    simp only [List.dropWhile_cons, h a (List.mem_cons_self _ _), if_true]
    exact ih (fun x hx => h x (List.mem_cons_of_mem _ hx))

theorem pyKeyOf_chunk (u v : List Char) (hu : ':' ∉ u) :
    pyKeyOf (u ++ ':' :: ' ' :: v) = pyStrip u := by
  unfold pyKeyOf
  rw [splitColonSpaceFirst_append u v hu]

theorem pyValOf_chunk (u v : List Char) (hu : ':' ∉ u)
    (hv : splitColonSpaceFirst v = none) :
    pyValOf (u ++ ':' :: ' ' :: v) = pyStrip v := by
  unfold pyValOf
  rw [lastColonSpacePart_some _ _ u v (splitColonSpaceFirst_append u v hu) hv
    (by simp [List.length_append])]

/-! Character class facts. -/

theorem isDigit_not_ws (c : Char) (h : c.isDigit = true) : isWS c = false := by
  unfold isWS
  rcases hw : c.isWhitespace with _ | _
  · rfl
  · exfalso
    rw [Char.isWhitespace] at hw
    have hc : c = ' ' ∨ c = '\t' ∨ c = '\x0d' ∨ c = '\n' := by
      rcases (Bool.or_eq_true _ _).mp hw with h1 | h4
      · rcases (Bool.or_eq_true _ _).mp h1 with h2 | h3
        · rcases (Bool.or_eq_true _ _).mp h2 with h5 | h6
          · exact Or.inl (of_decide_eq_true h5)
          · exact Or.inr (Or.inl (of_decide_eq_true h6))
        · exact Or.inr (Or.inr (Or.inl (of_decide_eq_true h3)))
      · exact Or.inr (Or.inr (Or.inr (of_decide_eq_true h4)))
    rcases hc with rfl | rfl | rfl | rfl <;> exact absurd h (by decide)

/-! Decimal rendering and parsing round trips. -/

theorem digitVal_digitChar (r : ℕ) (h : r < 10) :
    digitVal (digitChar r) = r := by
  interval_cases r <;> rfl

theorem isDigit_digitChar (r : ℕ) (h : r < 10) :
    (digitChar r).isDigit = true := by
  interval_cases r <;> rfl

theorem natVal_append_digit (l : List Char) (c : Char) :
    natVal (l ++ [c]) = natVal l * 10 + digitVal c := by
  unfold natVal
  rw [List.foldl_append]
  rfl

theorem natVal_singleton (c : Char) : natVal [c] = digitVal c := by
  unfold natVal
  simp [digitVal]

theorem natToDecAux_zero (fuel : ℕ) : natToDecAux fuel 0 = [] := by
  cases fuel <;> rfl

theorem natToDecAux_spec : ∀ (fuel n : ℕ), n ≤ fuel → 0 < n →
    natVal (natToDecAux fuel n) = n ∧ allDigits (natToDecAux fuel n) = true ∧
      natToDecAux fuel n ≠ [] := by
  intro fuel
  induction fuel with
  | zero => intro n h h0; omega
  | succ f ih =>
    intro n h h0
    unfold natToDecAux
    rw [if_neg (by omega)]
    have hlt : n / 10 < n := Nat.div_lt_self h0 (by omega)
    by_cases hq : n / 10 = 0
    · rw [hq, natToDecAux_zero, List.nil_append]
      have hn10 : n < 10 := by
        rcases Nat.lt_or_ge n 10 with h1 | h2
        · exact h1
        · exact absurd hq (Nat.pos_iff_ne_zero.mp (Nat.div_pos h2 (by omega)))
      refine ⟨?_, ?_, by simp⟩
      · rw [natVal_singleton, digitVal_digitChar _ (Nat.mod_lt n (by omega)),
          Nat.mod_eq_of_lt hn10]
      · unfold allDigits
        simp [isDigit_digitChar _ (Nat.mod_lt n (by omega))]
    · obtain ⟨ih1, ih2, ih3⟩ := ih (n / 10) (by omega) (by omega)
      refine ⟨?_, ?_, by simp⟩
      · rw [natVal_append_digit, ih1,
          digitVal_digitChar _ (Nat.mod_lt n (by omega))]
        omega
      · unfold allDigits
        rw [List.all_append]
        unfold allDigits at ih2
        rw [ih2]
        simp [isDigit_digitChar _ (Nat.mod_lt n (by omega))]

theorem natToDec_spec (n : ℕ) :
    natVal (natToDec n) = n ∧ allDigits (natToDec n) = true ∧
      natToDec n ≠ [] := by
  unfold natToDec
  by_cases h : n = 0
  · rw [if_pos h]
    refine ⟨by rw [h]; rfl, by decide, by simp⟩
  · rw [if_neg h]
    exact natToDecAux_spec n n le_rfl (by omega)

theorem parseNat_natToDec (n : ℕ) : parseNat (natToDec n) = some n := by
  obtain ⟨h1, h2, h3⟩ := natToDec_spec n
  unfold parseNat
  rw [if_pos ⟨h3, h2⟩, h1]

theorem head_digit_of_allDigits (l : List Char) (c : Char)
    (hd : allDigits l = true) (hc : l.head? = some c) : c.isDigit = true := by
  cases l with
  | nil => simp at hc
  | cons x xs =>
    rw [List.head?_cons, Option.some.injEq] at hc
    unfold allDigits at hd
    rw [List.all_eq_true] at hd
    rw [← hc]
    exact hd x (List.mem_cons_self _ _)

theorem natToDec_head_ne_dash (n : ℕ) :
    (natToDec n).head? ≠ some '-' := by
  intro hh
  obtain ⟨_, h2, _⟩ := natToDec_spec n
  have := head_digit_of_allDigits _ _ h2 hh
  exact absurd this (by decide)

theorem parseInt_intToDec (z : ℤ) : parseInt (intToDec z) = some z := by
  unfold intToDec parseInt
  by_cases hz : z < 0
  · rw [if_pos hz, if_pos (by rw [List.head?_cons])]
    rw [show ('-' :: natToDec z.natAbs).tail = natToDec z.natAbs from rfl]
    rw [parseNat_natToDec]
    simp only [Option.map_some', Option.some_bind, Option.pure_def]
    congr 1
    omega
  · rw [if_neg hz, if_neg (natToDec_head_ne_dash z.natAbs)]
    rw [parseNat_natToDec]
    simp only [Option.map_some', Option.some_bind, Option.pure_def]
    congr 1
    omega

theorem takeWhile_eq_self_of_all {p : Char → Bool} (l : List Char)
    (h : ∀ c ∈ l, p c = true) : l.takeWhile p = l := by
  induction l with
  | nil => rfl
  | cons x xs ih =>
    rw [List.takeWhile_cons, if_pos (h x (List.mem_cons_self _ _))]
    rw [ih (fun c hc => h c (List.mem_cons_of_mem _ hc))]

theorem dropWhile_eq_nil_of_all {p : Char → Bool} (l : List Char)
    (h : ∀ c ∈ l, p c = true) : l.dropWhile p = [] := by
  induction l with
  | nil => rfl
  | cons x xs ih =>
    simp only [List.dropWhile_cons, h x (List.mem_cons_self _ _), if_true]
    exact ih (fun c hc => h c (List.mem_cons_of_mem _ hc))

theorem parseFloatPos_digits (l : List Char) (hne : l ≠ [])
    (hd : allDigits l = true) :
    parseFloatPos l = some ((natVal l : ℚ)) := by
  unfold parseFloatPos
  unfold allDigits at hd
  rw [List.all_eq_true] at hd
  rw [takeWhile_eq_self_of_all l hd, dropWhile_eq_nil_of_all l hd]
  rw [if_pos rfl, if_neg hne]

theorem parseFloat_intToDec (z : ℤ) : parseFloat (intToDec z) = some ((z : ℚ)) := by
  unfold intToDec parseFloat
  by_cases hz : z < 0
  · rw [if_pos hz, if_pos (by rw [List.head?_cons])]
    rw [show ('-' :: natToDec z.natAbs).tail = natToDec z.natAbs from rfl]
    obtain ⟨h1, h2, h3⟩ := natToDec_spec z.natAbs
    rw [parseFloatPos_digits _ h3 h2, h1]
    simp only [Option.map_some']
    congr 1
    rw [show ((z.natAbs : ℕ) : ℚ) = ((z.natAbs : ℤ) : ℚ) from (Int.cast_natCast z.natAbs).symm]
    rw [show ((z.natAbs : ℤ)) = -z from by omega]
    push_cast
    ring
  · rw [if_neg hz, if_neg (natToDec_head_ne_dash z.natAbs)]
    obtain ⟨h1, h2, h3⟩ := natToDec_spec z.natAbs
    rw [parseFloatPos_digits _ h3 h2, h1]
    congr 1
    rw [show ((z.natAbs : ℕ) : ℚ) = ((z.natAbs : ℤ) : ℚ) from (Int.cast_natCast z.natAbs).symm]
    rw [show ((z.natAbs : ℤ)) = z from by omega]

theorem pyInt_intCast (z : ℤ) : pyInt ((z : ℚ)) = z := by
  unfold pyInt
  by_cases h : (0 : ℚ) ≤ ((z : ℤ) : ℚ)
  · rw [if_pos h, Int.floor_intCast]
  · rw [if_neg h]
    rw [show -((z : ℚ)) = (((-z : ℤ) : ℤ) : ℚ) from by push_cast; ring]
    rw [Int.floor_intCast]
    ring

/-! The 32-place fixed-point rendering round trip. -/

theorem rstripZeros_dot (a f : List Char) :
    rstripZeros (a ++ '.' :: f) = a ++ '.' :: rstripZeros f := by
  unfold rstripZeros
  rw [show (a ++ '.' :: f) = (a ++ ['.']) ++ f from by simp]
  rw [List.reverse_append]
  rw [List.dropWhile_append]
  by_cases hf : (f.reverse.dropWhile (fun c => decide (c = '0'))).isEmpty
  · rw [if_pos hf]
    rw [List.reverse_append]
    rw [show List.dropWhile (fun c => decide (c = '0')) (['.'].reverse ++ a.reverse) =
      ['.'].reverse ++ a.reverse from by
        apply dropWhile_of_head_false
        intro c hc
        simp at hc
        rw [← hc]
        rfl]
    rw [List.isEmpty_iff] at hf
    rw [hf]
    simp
  · rw [if_neg hf]
    rw [List.reverse_append, List.reverse_append]
    simp

theorem rstripZeros_split (l : List Char) :
    ∃ j, l = rstripZeros l ++ List.replicate j '0' ∧
      (rstripZeros l).length + j = l.length := by
  have hsplit := List.takeWhile_append_dropWhile
    (fun c => decide (c = '0')) l.reverse
  refine ⟨(l.reverse.takeWhile (fun c => decide (c = '0'))).length, ?_, ?_⟩
  · conv_lhs => rw [← List.reverse_reverse l, ← hsplit]
    rw [List.reverse_append]
    unfold rstripZeros
    congr 1
    have hall : ∀ c ∈ (l.reverse.takeWhile (fun c => decide (c = '0'))).reverse,
        c = '0' := by
      intro c hc
      rw [List.mem_reverse] at hc
      have h2 := List.mem_takeWhile_imp hc
      simpa using h2
    rw [List.eq_replicate_of_mem hall]
    simp
  · unfold rstripZeros
    have := congrArg List.length hsplit
    simp only [List.length_append, List.length_reverse] at *
    omega

theorem natVal_replicate_zero (j : ℕ) : natVal (List.replicate j '0') = 0 := by
  induction j with
  | zero => rfl
  | succ k ih =>
    rw [List.replicate_succ']
    rw [natVal_append_digit, ih]
    rfl

theorem natVal_leading_zeros (j : ℕ) (l : List Char) :
    natVal (List.replicate j '0' ++ l) = natVal l := by
  unfold natVal
  rw [List.foldl_append]
  rw [show (List.replicate j '0').foldl (fun acc c => acc * 10 + digitVal c) 0 =
    natVal (List.replicate j '0') from rfl]
  rw [natVal_replicate_zero]

theorem natVal_trailing_zeros (l : List Char) (j : ℕ) :
    natVal (l ++ List.replicate j '0') = natVal l * 10 ^ j := by
  induction j with
  | zero => simp
  | succ k ih =>
    rw [List.replicate_succ', ← List.append_assoc, natVal_append_digit, ih]
    rw [show digitVal '0' = 0 from rfl]
    ring

theorem allDigits_rstripZeros (l : List Char) (h : allDigits l = true) :
    allDigits (rstripZeros l) = true := by
  unfold allDigits at *
  rw [List.all_eq_true] at *
  intro c hc
  apply h
  unfold rstripZeros at hc
  rw [List.mem_reverse] at hc
  have := (List.dropWhile_sublist (fun c => decide (c = '0'))).subset hc
  rwa [List.mem_reverse] at this

theorem natToDecAux_length : ∀ (fuel n k : ℕ), n < 10 ^ k →
    (natToDecAux fuel n).length ≤ k := by
  intro fuel
  induction fuel with
  | zero => intro n k _; simp [natToDecAux]
  | succ f ih =>
    intro n k hk
    unfold natToDecAux
    by_cases h0 : n = 0
    · rw [if_pos h0]; simp
    · rw [if_neg h0]
      cases k with
      | zero => simp at hk; omega
      | succ k2 =>
        rw [List.length_append]
        have hdiv : n / 10 < 10 ^ k2 := by
          rw [Nat.div_lt_iff_lt_mul (by omega)]
          calc n < 10 ^ (k2 + 1) := hk
            _ = 10 ^ k2 * 10 := by ring
        have := ih (n / 10) k2 hdiv
        simp only [List.length_cons, List.length_nil]
        omega

theorem natToDec_length (n k : ℕ) (hn : n < 10 ^ k) (hk : 0 < k) :
    (natToDec n).length ≤ k := by
  unfold natToDec
  by_cases h : n = 0
  · rw [if_pos h]; simpa using hk
  · rw [if_neg h]; exact natToDecAux_length n n k hn

theorem takeWhile_append_stop (p : Char → Bool) (a : List Char) (c : Char)
    (r : List Char) (ha : ∀ x ∈ a, p x = true) (hc : p c = false) :
    (a ++ c :: r).takeWhile p = a ∧ (a ++ c :: r).dropWhile p = c :: r := by
  induction a with
  | nil =>
    constructor
    · rw [List.nil_append, List.takeWhile_cons]
      rw [hc]
      rfl
    · rw [List.nil_append]
      simp [List.dropWhile_cons, hc]
  | cons x xs ih =>
    obtain ⟨ih1, ih2⟩ := ih (fun y hy => ha y (List.mem_cons_of_mem _ hy))
    constructor
    · rw [List.cons_append, List.takeWhile_cons, ha x (List.mem_cons_self _ _)]
      rw [if_pos rfl, ih1]
    · rw [List.cons_append]
      simp only [List.dropWhile_cons, ha x (List.mem_cons_self _ _), if_true]
      exact ih2

theorem roundHalfEvenScaled_exact (m : ℤ) (den : ℕ) (hden : 0 < den) :
    roundHalfEvenScaled (m * den) den = m := by
  have hd : (den : ℤ) ≠ 0 := by exact_mod_cast Nat.pos_iff_ne_zero.mp hden
  unfold roundHalfEvenScaled
  dsimp only
  rw [Int.mul_fdiv_cancel m hd, sub_self, mul_zero]
  rw [if_pos (show (0 : ℤ) < (den : ℤ) from by exact_mod_cast hden)]

theorem parseFloatPos_render (q : ℚ) (hq : 0 ≤ q) (m : ℤ)
    (hm : q * ((pow32 : ℕ) : ℚ) = (m : ℚ)) :
    parseFloatPos (rstripZeros (renderFixed32Pos q)) = some q := by
  have hP : (0 : ℕ) < pow32 := by unfold pow32; positivity
  have hm0 : 0 ≤ m := by
    have h0 : (0 : ℚ) ≤ (m : ℚ) := by
      rw [← hm]
      exact mul_nonneg hq (by positivity)
    exact_mod_cast h0
  have hscaled : q.num * ((pow32 : ℕ) : ℤ) = m * (q.den : ℤ) := by
    have hd0 : (q.den : ℚ) ≠ 0 := by exact_mod_cast q.den_nz
    have h1 : (q.num : ℚ) = q * (q.den : ℚ) :=
      ((eq_div_iff hd0).mp (Rat.num_div_den q).symm).symm
    have h2 : ((q.num : ℤ) : ℚ) * ((pow32 : ℕ) : ℚ) =
        ((m : ℤ) : ℚ) * ((q.den : ℕ) : ℚ) := by
      rw [h1]
      calc q * (q.den : ℚ) * ((pow32 : ℕ) : ℚ)
          = q * ((pow32 : ℕ) : ℚ) * (q.den : ℚ) := by ring
        _ = (m : ℚ) * (q.den : ℚ) := by rw [hm]
    exact_mod_cast h2
  have hround : roundHalfEvenScaled (q.num * ((pow32 : ℕ) : ℤ)) q.den = m := by
    rw [hscaled]
    exact roundHalfEvenScaled_exact m q.den q.pos
  unfold renderFixed32Pos
  dsimp only
  rw [hround]
  have hNm : ((m.toNat : ℕ) : ℤ) = m := Int.toNat_of_nonneg hm0
  obtain ⟨hfd1, hfd2, hfd3⟩ := natToDec_spec (m.toNat % pow32)
  obtain ⟨hA1, hA2, hA3⟩ := natToDec_spec (m.toNat / pow32)
  have hfdlen : (natToDec (m.toNat % pow32)).length ≤ 32 := by
    apply natToDec_length _ 32 _ (by omega)
    calc m.toNat % pow32 < pow32 := Nat.mod_lt _ hP
      _ = 10 ^ 32 := rfl
  rw [rstripZeros_dot]
  obtain ⟨j, hsplit, hlen⟩ := rstripZeros_split
    (List.replicate (32 - (natToDec (m.toNat % pow32)).length) '0' ++
      natToDec (m.toNat % pow32))
  have hFlen : (List.replicate (32 - (natToDec (m.toNat % pow32)).length) '0' ++
      natToDec (m.toNat % pow32)).length = 32 := by
    rw [List.length_append, List.length_replicate]
    omega
  have hFdigits : allDigits (List.replicate (32 - (natToDec (m.toNat % pow32)).length) '0' ++
      natToDec (m.toNat % pow32)) = true := by
    unfold allDigits at *
    rw [List.all_append]
    rw [hfd2]
    rw [show (List.replicate (32 - (natToDec (m.toNat % pow32)).length) '0').all
      Char.isDigit = true from by
        rw [List.all_eq_true]
        intro x hx
        rw [List.eq_of_mem_replicate hx]
        rfl]
    rfl
  have hvalF : natVal (List.replicate (32 - (natToDec (m.toNat % pow32)).length) '0' ++
      natToDec (m.toNat % pow32)) = m.toNat % pow32 := by
    rw [natVal_leading_zeros, hfd1]
  set F := List.replicate (32 - (natToDec (m.toNat % pow32)).length) '0' ++
      natToDec (m.toNat % pow32) with hF
  set F2 := rstripZeros F with hF2
  have hF2digits : allDigits F2 = true := allDigits_rstripZeros F hFdigits
  have hvalF2 : natVal F2 * 10 ^ j = m.toNat % pow32 := by
    rw [← hvalF]
    conv_rhs => rw [hsplit]
    rw [natVal_trailing_zeros]
  unfold allDigits at hA2 hF2digits
  rw [List.all_eq_true] at hA2 hF2digits
  obtain ⟨htake, hdrop⟩ := takeWhile_append_stop Char.isDigit
    (natToDec (m.toNat / pow32)) '.' F2 hA2 (by rfl)
  unfold parseFloatPos
  dsimp only
  rw [htake, hdrop]
  rw [if_neg (by simp)]
  rw [if_pos ⟨rfl, by
    rw [show ('.' :: F2).tail = F2 from rfl]
    unfold allDigits
    rw [List.all_eq_true]
    exact hF2digits, Or.inl hA3⟩]
  rw [show ('.' :: F2).tail = F2 from rfl]
  rw [hA1]
  congr 1
  have hq' : q = ((m.toNat : ℕ) : ℚ) / ((pow32 : ℕ) : ℚ) := by
    have hP0 : ((pow32 : ℕ) : ℚ) ≠ 0 := by positivity
    rw [show ((m.toNat : ℕ) : ℚ) = ((m : ℤ) : ℚ) from by exact_mod_cast congrArg Int.cast hNm]
    rw [← hm]
    field_simp
  rw [hq']
  have hdm := Nat.div_add_mod m.toNat pow32
  have hcast : ((m.toNat : ℕ) : ℚ) =
      ((pow32 : ℕ) : ℚ) * ((m.toNat / pow32 : ℕ) : ℚ) + ((m.toNat % pow32 : ℕ) : ℚ) := by
    exact_mod_cast congrArg (fun n : ℕ => ((n : ℕ) : ℚ)) hdm.symm
  have hvalF2Q : ((natVal F2 : ℕ) : ℚ) * (10 : ℚ) ^ j = ((m.toNat % pow32 : ℕ) : ℚ) := by
    exact_mod_cast congrArg (fun n : ℕ => ((n : ℕ) : ℚ)) hvalF2
  have hlen32 : F2.length + j = 32 := by
    rw [hFlen] at hlen
    exact hlen
  have hP0 : ((pow32 : ℕ) : ℚ) ≠ 0 := by positivity
  have hPpow : ((pow32 : ℕ) : ℚ) = (10 : ℚ) ^ F2.length * (10 : ℚ) ^ j := by
    rw [show ((pow32 : ℕ) : ℚ) = (10 : ℚ) ^ (32 : ℕ) from by
      unfold pow32; push_cast; ring]
    rw [← hlen32, pow_add]
  rw [hcast, hPpow]
  have h10a : ((10 : ℚ) ^ F2.length) ≠ 0 := by positivity
  have h10b : ((10 : ℚ) ^ j) ≠ 0 := by positivity
  field_simp
  rw [← hvalF2Q]
  ring

theorem renderFixed32Pos_shape (q : ℚ) :
    ∃ A F2, renderFixed32Pos q = A ++ '.' :: F2 ∧
      allDigits A = true ∧ A ≠ [] := by
  unfold renderFixed32Pos
  dsimp only
  obtain ⟨_, h2, h3⟩ := natToDec_spec
    ((roundHalfEvenScaled (q.num * ((pow32 : ℕ) : ℤ)) q.den).toNat / pow32)
  exact ⟨_, _, rfl, h2, h3⟩

theorem rstripZeros_cons_dash (A F2 : List Char) :
    rstripZeros ('-' :: (A ++ '.' :: F2)) = '-' :: rstripZeros (A ++ '.' :: F2) := by
  rw [show ('-' :: (A ++ '.' :: F2)) = ('-' :: A) ++ '.' :: F2 from rfl]
  rw [rstripZeros_dot, rstripZeros_dot]
  rfl

theorem parseFloat_pyFloatField (q : ℚ) (m : ℤ)
    (hm : q * ((pow32 : ℕ) : ℚ) = (m : ℚ)) :
    parseFloat (pyFloatField q) = some q := by
  unfold pyFloatField renderFixed32
  by_cases hq : q < 0
  · rw [if_pos hq]
    obtain ⟨A, F2, hshape, hdig, hne⟩ := renderFixed32Pos_shape (-q)
    rw [hshape, rstripZeros_cons_dash]
    unfold parseFloat
    rw [if_pos (by rw [List.head?_cons])]
    rw [show ('-' :: rstripZeros (A ++ '.' :: F2)).tail =
      rstripZeros (A ++ '.' :: F2) from rfl]
    rw [← hshape]
    rw [parseFloatPos_render (-q) (by linarith) (-m) (by
      rw [show (((-m : ℤ)) : ℚ) = -((m : ℤ) : ℚ) from by push_cast; ring, ← hm]
      ring)]
    simp
  · rw [if_neg hq]
    unfold parseFloat
    obtain ⟨A, F2, hshape, hdig, hne⟩ := renderFixed32Pos_shape q
    rw [if_neg ?hdash]
    · exact parseFloatPos_render q (not_lt.mp hq) m hm
    case hdash =>
      rw [hshape, rstripZeros_dot]
      intro hh
      cases hA : A with
      | nil => exact hne hA
      | cons x xs =>
        rw [hA] at hh
        rw [List.cons_append, List.head?_cons, Option.some.injEq] at hh
        have hx : x.isDigit = true := by
          rw [hA] at hdig
          unfold allDigits at hdig
          rw [List.all_eq_true] at hdig
          exact hdig x (List.mem_cons_self _ _)
        rw [hh] at hx
        exact absurd hx (by decide)

/-! The chans list round trip. -/

theorem parseQuoted_quoteStr (s : String) (h : '\'' ∉ s.data) :
    parseQuoted (quoteStr s) = some s := by
  unfold parseQuoted quoteStr
  rw [if_pos ?cond]
  · congr 1
    rw [show ('\'' :: s.data ++ ['\'']).drop 1 = s.data ++ ['\''] from rfl]
    rw [show (s.data ++ ['\'']).dropLast = s.data from by simp]
  case cond =>
    refine ⟨by simp, rfl, ?_, ?_⟩
    · exact List.getLast?_concat _
    · rw [show ('\'' :: s.data ++ ['\'']).drop 1 = s.data ++ ['\''] from rfl,
        show (s.data ++ ['\'']).dropLast = s.data from by simp]
      rw [List.all_eq_true]
      intro c hc
      exact decide_eq_true (fun hh => h (hh ▸ hc))

theorem splitCommaSpaceFirst_of_no_comma (l : List Char) (h : ',' ∉ l) :
    splitCommaSpaceFirst l = none := by
  induction l with
  | nil => rfl
  | cons x xs ih =>
    rw [List.mem_cons] at h
    push_neg at h
    unfold splitCommaSpaceFirst
    rw [if_neg (fun hc => h.1 hc.1.symm), ih h.2]
    rfl

theorem splitCommaSpaceFirst_append (pre v : List Char) (h : ',' ∉ pre) :
    splitCommaSpaceFirst (pre ++ ',' :: ' ' :: v) = some (pre, v) := by
  induction pre with
  | nil =>
    rw [List.nil_append]
    unfold splitCommaSpaceFirst
    rw [if_pos ⟨rfl, rfl⟩]
    rfl
  | cons a rest ih =>
    rw [List.mem_cons] at h
    push_neg at h
    rw [List.cons_append]
    unfold splitCommaSpaceFirst
    rw [if_neg (fun hc => h.1 hc.1.symm), ih h.2]
    rfl

theorem splitCommaSpaceAux_join : ∀ (elts : List (List Char)) (fuel : ℕ),
    elts ≠ [] → (∀ e ∈ elts, ',' ∉ e) →
    (commaJoin elts).length ≤ fuel + 1 →
    splitCommaSpaceAux fuel (commaJoin elts) = elts := by
  intro elts
  induction elts with
  | nil => intro fuel h; exact absurd rfl h
  | cons e rest ih =>
    intro fuel _ hcl hlen
    cases rest with
    | nil =>
      rw [show commaJoin [e] = e from rfl]
      cases fuel with
      | zero => rfl
      | succ f =>
        unfold splitCommaSpaceAux
        rw [splitCommaSpaceFirst_of_no_comma e (hcl e (List.mem_cons_self _ _))]
    | cons x xs =>
      rw [show commaJoin (e :: x :: xs) = e ++ ',' :: ' ' :: commaJoin (x :: xs) from rfl]
      rw [show commaJoin (e :: x :: xs) = e ++ ',' :: ' ' :: commaJoin (x :: xs) from rfl]
        at hlen
      cases fuel with
      | zero =>
        exfalso
        rw [List.length_append, List.length_cons, List.length_cons] at hlen
        omega
      | succ f =>
        unfold splitCommaSpaceAux
        rw [splitCommaSpaceFirst_append e _ (hcl e (List.mem_cons_self _ _))]
        dsimp only
        rw [ih f (by simp) (fun y hy => hcl y (List.mem_cons_of_mem _ hy)) (by
          rw [List.length_append, List.length_cons, List.length_cons] at hlen
          omega)]

theorem mapM_parseQuoted_map (l : List String)
    (h : ∀ s ∈ l, '\'' ∉ s.data) :
    (l.map quoteStr).mapM parseQuoted = some l := by
  induction l with
  | nil => rfl
  | cons s rest ih =>
    rw [List.map_cons, List.mapM_cons]
    rw [parseQuoted_quoteStr s (h s (List.mem_cons_self _ _))]
    rw [ih (fun y hy => h y (List.mem_cons_of_mem _ hy))]
    rfl

theorem commaJoin_quote_ne_nil (s : String) (rest : List String) :
    commaJoin ((s :: rest).map quoteStr) ≠ [] := by
  cases rest with
  | nil => simp [commaJoin, quoteStr]
  | cons x xs =>
    rw [List.map_cons, List.map_cons]
    rw [show commaJoin (quoteStr s :: quoteStr x :: xs.map quoteStr) =
      quoteStr s ++ ',' :: ' ' :: commaJoin (quoteStr x :: xs.map quoteStr) from rfl]
    simp [quoteStr]

theorem chansParse_chansRender (l : List String)
    (h : ∀ s ∈ l, (',' ∉ s.data) ∧ ('\'' ∉ s.data)) :
    chansParse (chansRender l) = some l := by
  cases l with
  | nil => rfl
  | cons s rest =>
    unfold chansRender chansParse
    rw [if_pos ⟨rfl, List.getLast?_concat _, by simp⟩]
    dsimp only
    rw [show (('[' :: commaJoin ((s :: rest).map quoteStr) ++ [']']).drop 1).dropLast =
      commaJoin ((s :: rest).map quoteStr) from by
        rw [show ('[' :: commaJoin ((s :: rest).map quoteStr) ++ [']']).drop 1 =
          commaJoin ((s :: rest).map quoteStr) ++ [']'] from rfl]
        simp]
    rw [if_neg (commaJoin_quote_ne_nil s rest)]
    rw [splitCommaSpaceAux_join ((s :: rest).map quoteStr)
      (commaJoin ((s :: rest).map quoteStr)).length
      (by simp)
      (by
        intro e he
        rw [List.mem_map] at he
        obtain ⟨y, hy, hye⟩ := he
        rw [← hye]
        unfold quoteStr
        intro hmem
        rcases List.mem_append.mp hmem with hl | hq2
        · rcases List.mem_cons.mp hl with hq | hin
          · exact absurd hq (by decide)
          · exact (h y hy).1 hin
        · exact absurd (List.mem_singleton.mp hq2) (by decide))
      (by omega)]
    exact mapM_parseQuoted_map (s :: rest) (fun y hy => (h y hy).2)

/-! Character membership of the rendered field values: the written
numeric and list renderings contain no separator characters, so the
reader's chunk splitting recovers them intact. -/

theorem mem_natToDecAux : ∀ (fuel n : ℕ), ∀ c ∈ natToDecAux fuel n,
    c.isDigit = true := by
  intro fuel
  induction fuel with
  | zero => intro n c hc; simp [natToDecAux] at hc
  | succ f ih =>
    intro n c hc
    unfold natToDecAux at hc
    by_cases hn : n = 0
    · rw [if_pos hn] at hc
      simp at hc
    · rw [if_neg hn] at hc
      rcases List.mem_append.mp hc with h1 | h2
      · exact ih _ c h1
      · rw [List.mem_singleton] at h2
        rw [h2]
        exact isDigit_digitChar (n % 10) (Nat.mod_lt _ (by norm_num))

theorem mem_natToDec (n : ℕ) : ∀ c ∈ natToDec n, c.isDigit = true := by
  intro c hc
  unfold natToDec at hc
  by_cases hn : n = 0
  · rw [if_pos hn, List.mem_singleton] at hc
    rw [hc]
    decide
  · rw [if_neg hn] at hc
    exact mem_natToDecAux n n c hc

theorem mem_intToDec (z : ℤ) : ∀ c ∈ intToDec z, c = '-' ∨ c.isDigit = true := by
  intro c hc
  unfold intToDec at hc
  by_cases hz : z < 0
  · rw [if_pos hz, List.mem_cons] at hc
    rcases hc with h | h
    · exact Or.inl h
    · exact Or.inr (mem_natToDec _ c h)
  · rw [if_neg hz] at hc
    exact Or.inr (mem_natToDec _ c hc)

theorem mem_rstripZeros (l : List Char) : ∀ c ∈ rstripZeros l, c ∈ l := by
  intro c hc
  unfold rstripZeros at hc
  rw [List.mem_reverse] at hc
  have h2 := (List.dropWhile_sublist (fun c => decide (c = '0'))).subset hc
  rwa [List.mem_reverse] at h2

theorem mem_renderFixed32Pos (q : ℚ) :
    ∀ c ∈ renderFixed32Pos q, c = '.' ∨ c.isDigit = true := by
  intro c hc
  unfold renderFixed32Pos at hc
  dsimp only at hc
  rcases List.mem_append.mp hc with h1 | h2
  · exact Or.inr (mem_natToDec _ c h1)
  · rw [List.mem_cons] at h2
    rcases h2 with h | h
    · exact Or.inl h
    · rcases List.mem_append.mp h with h3 | h4
      · rw [List.eq_of_mem_replicate h3]
        right
        decide
      · exact Or.inr (mem_natToDec _ c h4)

theorem mem_pyFloatField (q : ℚ) :
    ∀ c ∈ pyFloatField q, c = '-' ∨ c = '.' ∨ c.isDigit = true := by
  intro c hc
  unfold pyFloatField at hc
  have hc2 := mem_rstripZeros _ c hc
  unfold renderFixed32 at hc2
  by_cases hq : q < 0
  · rw [if_pos hq, List.mem_cons] at hc2
    rcases hc2 with h | h
    · exact Or.inl h
    · rcases mem_renderFixed32Pos _ c h with h | h
      · exact Or.inr (Or.inl h)
      · exact Or.inr (Or.inr h)
  · rw [if_neg hq] at hc2
    rcases mem_renderFixed32Pos _ c hc2 with h | h
    · exact Or.inr (Or.inl h)
    · exact Or.inr (Or.inr h)

theorem mem_commaJoin : ∀ (elts : List (List Char)) (c : Char),
    c ∈ commaJoin elts → c = ',' ∨ c = ' ' ∨ ∃ e ∈ elts, c ∈ e := by
  intro elts
  induction elts with
  | nil => intro c hc; simp [commaJoin] at hc
  | cons e rest ih =>
    intro c hc
    cases rest with
    | nil =>
      right
      right
      exact ⟨e, List.mem_cons_self _ _, hc⟩
    | cons x xs =>
      rw [show commaJoin (e :: x :: xs) =
        e ++ ',' :: ' ' :: commaJoin (x :: xs) from rfl] at hc
      rcases List.mem_append.mp hc with h1 | h2
      · right
        right
        exact ⟨e, List.mem_cons_self _ _, h1⟩
      · rw [List.mem_cons] at h2
        rcases h2 with h | h2
        · exact Or.inl h
        · rw [List.mem_cons] at h2
          rcases h2 with h | h2
          · exact Or.inr (Or.inl h)
          · rcases ih c h2 with h | h | ⟨e2, he2, hce⟩
            · exact Or.inl h
            · exact Or.inr (Or.inl h)
            · exact Or.inr (Or.inr ⟨e2, List.mem_cons_of_mem _ he2, hce⟩)

theorem mem_chansRender (chans : List String) (c : Char)
    (hc : c ∈ chansRender chans) :
    c = '[' ∨ c = ']' ∨ c = '\'' ∨ c = ',' ∨ c = ' ' ∨
      ∃ s ∈ chans, c ∈ s.data := by
  unfold chansRender at hc
  rcases List.mem_append.mp hc with h1 | h2
  · rw [List.mem_cons] at h1
    rcases h1 with h | h1
    · exact Or.inl h
    rcases mem_commaJoin _ c h1 with h | h | ⟨e, he, hce⟩
    · right; right; right; left
      exact h
    · right; right; right; right; left
      exact h
    · rw [List.mem_map] at he
      obtain ⟨s, hs, hse⟩ := he
      rw [← hse] at hce
      unfold quoteStr at hce
      rcases List.mem_append.mp hce with h3 | h4
      · rw [List.mem_cons] at h3
        rcases h3 with h | h3
        · right; right; left
          exact h
        · right; right; right; right; right
          exact ⟨s, hs, h3⟩
      · rw [List.mem_singleton] at h4
        right; right; left
        exact h4
  · rw [List.mem_singleton] at h2
    right; left
    exact h2

/-! The written value of each field satisfies the recovery conditions. -/

theorem chunkVal_clean (s : String) (h : cleanField s) : chunkVal s.data :=
⟨splitColonSpaceFirst_of_no_colon _ h.2.1, h.2.2.2.2, h.1⟩

theorem chunkVal_intToDec (z : ℤ) : chunkVal (intToDec z) := by
  have hmem := mem_intToDec z
  refine ⟨splitColonSpaceFirst_of_no_colon _ ?_, pyStrip_of_no_ws _ ?_, ?_⟩
  · intro hc
    rcases hmem ':' hc with h | h
    · exact absurd h (by decide)
    · exact absurd h (by decide)
  · intro c hc
    rcases hmem c hc with h | h
    · rw [h]
      decide
    · exact isDigit_not_ws c h
  · intro hc
    rcases hmem ';' hc with h | h
    · exact absurd h (by decide)
    · exact absurd h (by decide)

theorem chunkVal_pyFloatField (q : ℚ) : chunkVal (pyFloatField q) := by
  have hmem := mem_pyFloatField q
  refine ⟨splitColonSpaceFirst_of_no_colon _ ?_, pyStrip_of_no_ws _ ?_, ?_⟩
  · intro hc
    rcases hmem ':' hc with h | h | h <;> exact absurd h (by decide)
  · intro c hc
    rcases hmem c hc with h | h | h
    · rw [h]
      decide
    · rw [h]
      decide
    · exact isDigit_not_ws c h
  · intro hc
    rcases hmem ';' hc with h | h | h <;> exact absurd h (by decide)

theorem chunkVal_eventFieldValue (d : Detection)
    (h : ∀ e, d.event = some e → cleanResource e.resource_id) :
    chunkVal (eventFieldValue d) := by
  unfold eventFieldValue
  cases he : d.event with
  | none => exact ⟨by decide, by decide, by decide⟩
  | some e =>
    obtain ⟨h1, h2, h3⟩ := h e he
    exact ⟨h2, h3, h1⟩

theorem chunkVal_chansRender (chans : List String)
    (h : ∀ s ∈ chans, cleanField s) : chunkVal (chansRender chans) := by
  have hnc : ∀ c ∈ chansRender chans, c ≠ ':' ∧ c ≠ ';' := by
    intro c hc
    rcases mem_chansRender chans c hc with h1 | h1 | h1 | h1 | h1 | ⟨s, hs, hcs⟩
    · rw [h1]; exact ⟨by decide, by decide⟩
    · rw [h1]; exact ⟨by decide, by decide⟩
    · rw [h1]; exact ⟨by decide, by decide⟩
    · rw [h1]; exact ⟨by decide, by decide⟩
    · rw [h1]; exact ⟨by decide, by decide⟩
    · constructor
      · intro hq
        rw [hq] at hcs
        exact (h s hs).2.1 hcs
      · intro hq
        rw [hq] at hcs
        exact (h s hs).1 hcs
  refine ⟨splitColonSpaceFirst_of_no_colon _ ?_, ?_, ?_⟩
  · intro hc
    exact (hnc ':' hc).1 rfl
  · unfold chansRender
    apply pyStrip_of_bounds
    · intro c hc
      rw [show (('[' :: commaJoin (chans.map quoteStr)) ++ [']']).head? =
        some '[' from rfl] at hc
      rw [Option.some.injEq] at hc
      rw [← hc]
      decide
    · intro c hc
      rw [List.getLast?_concat] at hc
      rw [Option.some.injEq] at hc
      rw [← hc]
      decide
  · intro hc
    exact (hnc ';' hc).2 rfl

/-! Key and value recovery for a written key-value chunk, with an
optional whitespace prefix left by the semicolon-space separator. -/

theorem kv_no_semi (k : String) (v : List Char)
    (hk : ';' ∉ k.data) (hv : ';' ∉ v) : ';' ∉ kv k v := by
  intro hc
  unfold kv at hc
  rcases List.mem_append.mp hc with h1 | h2
  · exact hk h1
  · rw [List.mem_cons] at h2
    rcases h2 with h | h2
    · exact absurd h (by decide)
    · rw [List.mem_cons] at h2
      rcases h2 with h | h2
      · exact absurd h (by decide)
      · exact hv h2

theorem chunk_key_val_pre (pre : List Char) (hpre : ∀ c ∈ pre, isWS c = true)
    (k : String) (v : List Char)
    (hk1 : ':' ∉ k.data) (hk2 : pyStrip k.data = k.data)
    (hv : chunkVal v) :
    pyKeyOf (pre ++ kv k v) = k.data ∧ pyValOf (pre ++ kv k v) = v := by
  have hsplit : splitColonSpaceFirst (pre ++ kv k v) = some (pre ++ k.data, v) := by
    rw [show pre ++ kv k v = (pre ++ k.data) ++ ':' :: ' ' :: v from by
      unfold kv
      rw [List.append_assoc]]
    refine splitColonSpaceFirst_append _ v ?_
    intro hmem
    rcases List.mem_append.mp hmem with h | h
    · have hw := hpre ':' h
      exact absurd hw (by decide)
    · exact hk1 h
  constructor
  · unfold pyKeyOf
    rw [hsplit]
    show pyStrip (pre ++ k.data) = k.data
    unfold pyStrip
    rw [dropWhile_append_of_all pre k.data hpre]
    exact hk2
  · unfold pyValOf
    rw [lastColonSpacePart_some _ _ _ v hsplit hv.1 (by
      unfold kv
      simp [List.length_append])]
    exact hv.2.1

theorem chunk_key_val (k : String) (v : List Char)
    (hk1 : ':' ∉ k.data) (hk2 : pyStrip k.data = k.data)
    (hv : chunkVal v) :
    pyKeyOf (kv k v) = k.data ∧ pyValOf (kv k v) = v :=
chunk_key_val_pre [] (fun c hc => absurd hc (List.not_mem_nil c)) k v hk1 hk2 hv

theorem chunk_key_val_sp (k : String) (v : List Char)
    (hk1 : ':' ∉ k.data) (hk2 : pyStrip k.data = k.data)
    (hv : chunkVal v) :
    pyKeyOf (' ' :: kv k v) = k.data ∧ pyValOf (' ' :: kv k v) = v :=
chunk_key_val_pre [' '] (by decide) k v hk1 hk2 hv

/-! Evaluation of the per-chunk dispatch at each written key. -/

theorem decodeChunk_nil (all_cat : List Event) (s : DetParse) :
    decodeChunk all_cat s [] = some s := rfl

theorem decodeChunk_key_event_empty (s : DetParse) (chunk : List Char)
    (hk : pyKeyOf chunk = ("event").data) :
    decodeChunk [] s chunk = some { s with genEvent := true } := by
  simp only [decodeChunk]
  rw [hk]
  rw [if_pos (by decide)]
  rw [if_pos (show List.length ([] : List Event) = 0 from rfl)]

theorem decodeChunk_key_event_miss (all_cat : List Event) (s : DetParse)
    (chunk : List Char) (rid : List Char)
    (hk : pyKeyOf chunk = ("event").data) (hv : pyValOf chunk = rid)
    (hne : ¬ all_cat.length = 0)
    (hmiss : ∀ ec ∈ all_cat, ¬ ((splitOnChar '/' ec.resource_id.data).getLastD [] = rid)) :
    decodeChunk all_cat s chunk = none := by
  simp only [decodeChunk]
  rw [hk, hv]
  rw [if_pos (by decide)]
  rw [if_neg hne]
  unfold resolveEvent
  rw [List.find?_eq_none.mpr (fun ec hc => by
    simp only [decide_eq_true_eq]
    exact hmiss ec hc)]
  rfl

theorem decodeChunk_key_detect_time (all_cat : List Event) (s : DetParse)
    (chunk : List Char) (z : ℤ)
    (hk : pyKeyOf chunk = ("detect_time").data) (hv : pyValOf chunk = intToDec z) :
    decodeChunk all_cat s chunk = some { s with detect_time := some z } := by
  simp only [decodeChunk]
  rw [hk, hv]
  rw [if_neg (by decide), if_pos (by decide)]
  rw [parseInt_intToDec]
  rfl

theorem decodeChunk_key_chans (all_cat : List Event) (s : DetParse)
    (chunk : List Char) (cl : List String)
    (hk : pyKeyOf chunk = ("chans").data) (hv : pyValOf chunk = chansRender cl)
    (hcl : ∀ x ∈ cl, (',' ∉ x.data) ∧ ('\'' ∉ x.data)) :
    decodeChunk all_cat s chunk = some { s with chans := some cl } := by
  simp only [decodeChunk]
  rw [hk, hv]
  rw [if_neg (by decide), if_neg (by decide), if_pos (by decide)]
  rw [chansParse_chansRender cl hcl]
  rfl

theorem decodeChunk_key_template_name (all_cat : List Event) (s : DetParse)
    (chunk : List Char) (w : String)
    (hk : pyKeyOf chunk = ("template_name").data) (hv : pyValOf chunk = w.data) :
    decodeChunk all_cat s chunk = some { s with template_name := some w } := by
  simp only [decodeChunk]
  rw [hk, hv]
  rw [if_neg (by decide), if_neg (by decide), if_neg (by decide), if_pos (by decide)]

theorem decodeChunk_key_typeofdet (all_cat : List Event) (s : DetParse)
    (chunk : List Char) (w : String)
    (hk : pyKeyOf chunk = ("typeofdet").data) (hv : pyValOf chunk = w.data) :
    decodeChunk all_cat s chunk = some { s with typeofdet := some w } := by
  simp only [decodeChunk]
  rw [hk, hv]
  rw [if_neg (by decide), if_neg (by decide), if_neg (by decide),
    if_neg (by decide), if_pos (by decide)]

theorem decodeChunk_key_id (all_cat : List Event) (s : DetParse)
    (chunk : List Char) (w : String)
    (hk : pyKeyOf chunk = ("id").data) (hv : pyValOf chunk = w.data) :
    decodeChunk all_cat s chunk = some { s with id := some w } := by
  simp only [decodeChunk]
  rw [hk, hv]
  rw [if_neg (by decide), if_neg (by decide), if_neg (by decide),
    if_neg (by decide), if_neg (by decide), if_pos (by decide)]

theorem decodeChunk_key_threshold_type (all_cat : List Event) (s : DetParse)
    (chunk : List Char) (w : String)
    (hk : pyKeyOf chunk = ("threshold_type").data) (hv : pyValOf chunk = w.data) :
    decodeChunk all_cat s chunk = some { s with threshold_type := some w } := by
  simp only [decodeChunk]
  rw [hk, hv]
  rw [if_neg (by decide), if_neg (by decide), if_neg (by decide),
    if_neg (by decide), if_neg (by decide), if_neg (by decide), if_pos (by decide)]

theorem decodeChunk_key_no_chans (all_cat : List Event) (s : DetParse)
    (chunk : List Char) (z : ℤ)
    (hk : pyKeyOf chunk = ("no_chans").data) (hv : pyValOf chunk = intToDec z) :
    decodeChunk all_cat s chunk = some { s with no_chans := some z } := by
  simp only [decodeChunk]
  rw [hk, hv]
  rw [if_neg (by decide), if_neg (by decide), if_neg (by decide),
    if_neg (by decide), if_neg (by decide), if_neg (by decide),
    if_neg (by decide), if_pos (by decide)]
  rw [parseFloat_intToDec, Option.map_some', pyInt_intCast]

theorem decodeChunk_key_threshold (all_cat : List Event) (s : DetParse)
    (chunk : List Char) (q : ℚ) (m : ℤ)
    (hm : q * ((pow32 : ℕ) : ℚ) = (m : ℚ))
    (hk : pyKeyOf chunk = ("threshold").data) (hv : pyValOf chunk = pyFloatField q) :
    decodeChunk all_cat s chunk = some { s with threshold := some q } := by
  simp only [decodeChunk]
  rw [hk, hv]
  rw [if_neg (by decide), if_neg (by decide), if_neg (by decide),
    if_neg (by decide), if_neg (by decide), if_neg (by decide),
    if_neg (by decide), if_neg (by decide), if_neg (by decide), if_pos (by decide)]
  rw [parseFloat_pyFloatField q m hm]
  rfl

theorem decodeChunk_key_detect_val (all_cat : List Event) (s : DetParse)
    (chunk : List Char) (q : ℚ) (m : ℤ)
    (hm : q * ((pow32 : ℕ) : ℚ) = (m : ℚ))
    (hk : pyKeyOf chunk = ("detect_val").data) (hv : pyValOf chunk = pyFloatField q) :
    decodeChunk all_cat s chunk = some { s with detect_val := some q } := by
  simp only [decodeChunk]
  rw [hk, hv]
  rw [if_neg (by decide), if_neg (by decide), if_neg (by decide),
    if_neg (by decide), if_neg (by decide), if_neg (by decide),
    if_neg (by decide), if_neg (by decide), if_neg (by decide),
    if_neg (by decide), if_pos (by decide)]
  rw [parseFloat_pyFloatField q m hm]
  rfl

theorem decodeChunk_key_threshold_input (all_cat : List Event) (s : DetParse)
    (chunk : List Char) (q : ℚ) (m : ℤ)
    (hm : q * ((pow32 : ℕ) : ℚ) = (m : ℚ))
    (hk : pyKeyOf chunk = ("threshold_input").data) (hv : pyValOf chunk = pyFloatField q) :
    decodeChunk all_cat s chunk = some { s with threshold_input := some q } := by
  simp only [decodeChunk]
  rw [hk, hv]
  rw [if_neg (by decide), if_neg (by decide), if_neg (by decide),
    if_neg (by decide), if_neg (by decide), if_neg (by decide),
    if_neg (by decide), if_neg (by decide), if_neg (by decide),
    if_neg (by decide), if_neg (by decide), if_pos (by decide)]
  rw [parseFloat_pyFloatField q m hm]
  rfl

/-- One step of the option-valued fold over the chunks of a line. -/
theorem optFold_cons (g : DetParse → List Char → Option DetParse)
    (s s' : DetParse) (c : List Char) (cs : List (List Char))
    (h : g s c = some s') :
    List.foldlM g s (c :: cs) = List.foldlM g s' cs := by
  rw [List.foldlM_cons, h]
  rfl

/-- Decoding one written detection line against an empty reference
catalog reproduces the detection exactly, with its event synthesized
from the template, provided the string fields are clean for the flat
format and the float fields are exactly representable in 32 decimal
places. -/
theorem decodeLine_encode (t : Template) (est : Bool) (d : Detection)
    (hclean : detClean d) (h1 : exact32 d.detect_val)
    (h2 : exact32 d.threshold) (h3 : exact32 d.threshold_input) :
    decodeLine [] t est (encodeDetection d) =
      some { d with event := some (calculateEvent t { d with event := none } est true) } := by
  obtain ⟨hc1, hc2, hc3, hc4, hc5, hc6⟩ := hclean
  unfold exact32 at h1 h2 h3
  obtain ⟨m1, hm1⟩ := h1
  obtain ⟨m2, hm2⟩ := h2
  obtain ⟨m3, hm3⟩ := h3
  have V1 := chunkVal_clean _ hc1
  have V2 := chunkVal_intToDec d.detect_time
  have V3 := chunkVal_intToDec d.no_chans
  have V4 := chunkVal_pyFloatField d.detect_val
  have V5 := chunkVal_pyFloatField d.threshold
  have V6 := chunkVal_clean _ hc2
  have V7 := chunkVal_pyFloatField d.threshold_input
  have V8 := chunkVal_clean _ hc3
  have V9 := chunkVal_eventFieldValue d hc6
  have V10 := chunkVal_chansRender d.chans hc5
  have V11 := chunkVal_clean _ hc4
  have K1 := chunk_key_val ("template_name") d.template_name.data
    (by decide) (by decide) V1
  have K2 := chunk_key_val_sp ("detect_time") (intToDec d.detect_time)
    (by decide) (by decide) V2
  have K3 := chunk_key_val_sp ("no_chans") (intToDec d.no_chans)
    (by decide) (by decide) V3
  have K4 := chunk_key_val_sp ("detect_val") (pyFloatField d.detect_val)
    (by decide) (by decide) V4
  have K5 := chunk_key_val_sp ("threshold") (pyFloatField d.threshold)
    (by decide) (by decide) V5
  have K6 := chunk_key_val_sp ("threshold_type") d.threshold_type.data
    (by decide) (by decide) V6
  have K7 := chunk_key_val_sp ("threshold_input") (pyFloatField d.threshold_input)
    (by decide) (by decide) V7
  have K8 := chunk_key_val_sp ("typeofdet") d.typeofdet.data
    (by decide) (by decide) V8
  have K9 := chunk_key_val_sp ("event") (eventFieldValue d)
    (by decide) (by decide) V9
  have K10 := chunk_key_val_sp ("chans") (chansRender d.chans)
    (by decide) (by decide) V10
  have K11 := chunk_key_val_sp ("id") d.id.data
    (by decide) (by decide) V11
  have hs0 : ';' ∉ kv ("template_name") d.template_name.data :=
    kv_no_semi _ _ (by decide) V1.2.2
  have hsR : ∀ x ∈
      [ kv ("detect_time") (intToDec d.detect_time)
      , kv ("no_chans") (intToDec d.no_chans)
      , kv ("detect_val") (pyFloatField d.detect_val)
      , kv ("threshold") (pyFloatField d.threshold)
      , kv ("threshold_type") d.threshold_type.data
      , kv ("threshold_input") (pyFloatField d.threshold_input)
      , kv ("typeofdet") d.typeofdet.data
      , kv ("event") (eventFieldValue d)
      , kv ("chans") (chansRender d.chans)
      , kv ("id") d.id.data ], ';' ∉ x := by
    intro x hx
    simp only [List.mem_cons, List.not_mem_nil, or_false] at hx
    rcases hx with rfl | rfl | rfl | rfl | rfl | rfl | rfl | rfl | rfl | rfl
    · exact kv_no_semi _ _ (by decide) V2.2.2
    · exact kv_no_semi _ _ (by decide) V3.2.2
    · exact kv_no_semi _ _ (by decide) V4.2.2
    · exact kv_no_semi _ _ (by decide) V5.2.2
    · exact kv_no_semi _ _ (by decide) V6.2.2
    · exact kv_no_semi _ _ (by decide) V7.2.2
    · exact kv_no_semi _ _ (by decide) V8.2.2
    · exact kv_no_semi _ _ (by decide) V9.2.2
    · exact kv_no_semi _ _ (by decide) V10.2.2
    · exact kv_no_semi _ _ (by decide) V11.2.2
  unfold decodeLine
  rw [pyRStrip_encodeDetection]
  unfold detFields
  rw [splitOnChar_semiJoin _ _ hs0 hsR]
  simp only [List.map_cons, List.map_nil, List.cons_append, List.nil_append]
  rw [optFold_cons _ _ _ _ _
    (decodeChunk_key_template_name [] _ _ d.template_name K1.1 K1.2)]
  rw [optFold_cons _ _ _ _ _
    (decodeChunk_key_detect_time [] _ _ d.detect_time K2.1 K2.2)]
  rw [optFold_cons _ _ _ _ _
    (decodeChunk_key_no_chans [] _ _ d.no_chans K3.1 K3.2)]
  rw [optFold_cons _ _ _ _ _
    (decodeChunk_key_detect_val [] _ _ d.detect_val m1 hm1 K4.1 K4.2)]
  rw [optFold_cons _ _ _ _ _
    (decodeChunk_key_threshold [] _ _ d.threshold m2 hm2 K5.1 K5.2)]
  rw [optFold_cons _ _ _ _ _
    (decodeChunk_key_threshold_type [] _ _ d.threshold_type K6.1 K6.2)]
  rw [optFold_cons _ _ _ _ _
    (decodeChunk_key_threshold_input [] _ _ d.threshold_input m3 hm3 K7.1 K7.2)]
  rw [optFold_cons _ _ _ _ _
    (decodeChunk_key_typeofdet [] _ _ d.typeofdet K8.1 K8.2)]
  rw [optFold_cons _ _ _ _ _
    (decodeChunk_key_event_empty _ _ K9.1)]
  rw [optFold_cons _ _ _ _ _
    (decodeChunk_key_chans [] _ _ d.chans K10.1 K10.2
      (fun x hx => ⟨(hc5 x hx).2.2.1, (hc5 x hx).2.2.2.1⟩))]
  rw [optFold_cons _ _ _ _ _
    (decodeChunk_key_id [] _ _ d.id K11.1 K11.2)]
  rw [optFold_cons _ _ _ _ _ (decodeChunk_nil [] _)]
  rfl

/-- Decoding one written detection line that references an event against
a non-empty reference catalog containing no event whose resource
identifier ends in the referenced value fails: the reader indexes into an
empty comprehension result instead of synthesizing an event. -/
theorem decodeLine_encode_miss (all_cat : List Event) (t : Template)
    (est : Bool) (d : Detection) (e : Event)
    (hclean : detClean d) (h1 : exact32 d.detect_val)
    (h2 : exact32 d.threshold) (h3 : exact32 d.threshold_input)
    (he : d.event = some e) (hne : all_cat ≠ [])
    (hmiss : ∀ ec ∈ all_cat, lastResourceComponent ec ≠ e.resource_id.data) :
    decodeLine all_cat t est (encodeDetection d) = none := by
  obtain ⟨hc1, hc2, hc3, hc4, hc5, hc6⟩ := hclean
  unfold exact32 at h1 h2 h3
  obtain ⟨m1, hm1⟩ := h1
  obtain ⟨m2, hm2⟩ := h2
  obtain ⟨m3, hm3⟩ := h3
  have hev : eventFieldValue d = e.resource_id.data := by
    unfold eventFieldValue
    rw [he]
  have V1 := chunkVal_clean _ hc1
  have V2 := chunkVal_intToDec d.detect_time
  have V3 := chunkVal_intToDec d.no_chans
  have V4 := chunkVal_pyFloatField d.detect_val
  have V5 := chunkVal_pyFloatField d.threshold
  have V6 := chunkVal_clean _ hc2
  have V7 := chunkVal_pyFloatField d.threshold_input
  have V8 := chunkVal_clean _ hc3
  have V9 := chunkVal_eventFieldValue d hc6
  have K1 := chunk_key_val ("template_name") d.template_name.data
    (by decide) (by decide) V1
  have K2 := chunk_key_val_sp ("detect_time") (intToDec d.detect_time)
    (by decide) (by decide) V2
  have K3 := chunk_key_val_sp ("no_chans") (intToDec d.no_chans)
    (by decide) (by decide) V3
  have K4 := chunk_key_val_sp ("detect_val") (pyFloatField d.detect_val)
    (by decide) (by decide) V4
  have K5 := chunk_key_val_sp ("threshold") (pyFloatField d.threshold)
    (by decide) (by decide) V5
  have K6 := chunk_key_val_sp ("threshold_type") d.threshold_type.data
    (by decide) (by decide) V6
  have K7 := chunk_key_val_sp ("threshold_input") (pyFloatField d.threshold_input)
    (by decide) (by decide) V7
  have K8 := chunk_key_val_sp ("typeofdet") d.typeofdet.data
    (by decide) (by decide) V8
  have K9 := chunk_key_val_sp ("event") (eventFieldValue d)
    (by decide) (by decide) V9
  have hs0 : ';' ∉ kv ("template_name") d.template_name.data :=
    kv_no_semi _ _ (by decide) V1.2.2
  have hsR : ∀ x ∈
      [ kv ("detect_time") (intToDec d.detect_time)
      , kv ("no_chans") (intToDec d.no_chans)
      , kv ("detect_val") (pyFloatField d.detect_val)
      , kv ("threshold") (pyFloatField d.threshold)
      , kv ("threshold_type") d.threshold_type.data
      , kv ("threshold_input") (pyFloatField d.threshold_input)
      , kv ("typeofdet") d.typeofdet.data
      , kv ("event") (eventFieldValue d)
      , kv ("chans") (chansRender d.chans)
      , kv ("id") d.id.data ], ';' ∉ x := by
    intro x hx
    simp only [List.mem_cons, List.not_mem_nil, or_false] at hx
    rcases hx with rfl | rfl | rfl | rfl | rfl | rfl | rfl | rfl | rfl | rfl
    · exact kv_no_semi _ _ (by decide) V2.2.2
    · exact kv_no_semi _ _ (by decide) V3.2.2
    · exact kv_no_semi _ _ (by decide) V4.2.2
    · exact kv_no_semi _ _ (by decide) V5.2.2
    · exact kv_no_semi _ _ (by decide) V6.2.2
    · exact kv_no_semi _ _ (by decide) V7.2.2
    · exact kv_no_semi _ _ (by decide) V8.2.2
    · exact kv_no_semi _ _ (by decide) V9.2.2
    · exact kv_no_semi _ _ (by decide) (chunkVal_chansRender d.chans hc5).2.2
    · exact kv_no_semi _ _ (by decide) (chunkVal_clean _ hc4).2.2
  unfold decodeLine
  rw [pyRStrip_encodeDetection]
  unfold detFields
  rw [splitOnChar_semiJoin _ _ hs0 hsR]
  simp only [List.map_cons, List.map_nil, List.cons_append, List.nil_append]
  rw [optFold_cons _ _ _ _ _
    (decodeChunk_key_template_name all_cat _ _ d.template_name K1.1 K1.2)]
  rw [optFold_cons _ _ _ _ _
    (decodeChunk_key_detect_time all_cat _ _ d.detect_time K2.1 K2.2)]
  rw [optFold_cons _ _ _ _ _
    (decodeChunk_key_no_chans all_cat _ _ d.no_chans K3.1 K3.2)]
  rw [optFold_cons _ _ _ _ _
    (decodeChunk_key_detect_val all_cat _ _ d.detect_val m1 hm1 K4.1 K4.2)]
  rw [optFold_cons _ _ _ _ _
    (decodeChunk_key_threshold all_cat _ _ d.threshold m2 hm2 K5.1 K5.2)]
  rw [optFold_cons _ _ _ _ _
    (decodeChunk_key_threshold_type all_cat _ _ d.threshold_type K6.1 K6.2)]
  rw [optFold_cons _ _ _ _ _
    (decodeChunk_key_threshold_input all_cat _ _ d.threshold_input m3 hm3 K7.1 K7.2)]
  rw [optFold_cons _ _ _ _ _
    (decodeChunk_key_typeofdet all_cat _ _ d.typeofdet K8.1 K8.2)]
  rw [List.foldlM_cons]
  rw [decodeChunk_key_event_miss all_cat _ _ (eventFieldValue d) K9.1 K9.2
    (fun h0 => hne (List.length_eq_zero.mp h0))
    (by
      intro ec hc
      rw [hev]
      exact hmiss ec hc)]
  rfl

/-- C6: the flat-format round trip.  For every family whose detections
have clean string fields and threshold-related float fields exactly
representable in the 32-place float format of the writer, writing the
family and reading the lines back with the family's template and an
empty reference catalog succeeds and reproduces every detection's
scalar fields exactly, with an event synthesized from the template
attached to each detection. -/
theorem C6_write_read_round_trip (f : Family)
    (h : ∀ d ∈ f.detections, detClean d ∧ exact32 d.detect_val ∧
      exact32 d.threshold ∧ exact32 d.threshold_input) :
    readFamilyLines [] f.template true (writeFamilyLines f) =
      some (f.detections.map (decodedForm f.template)) := by
  obtain ⟨t, dets, cc⟩ := f
  dsimp only at h ⊢
  unfold readFamilyLines writeFamilyLines
  dsimp only
  revert h
  induction dets with
  | nil =>
    intro h
    rfl
  | cons a l ih =>
    intro h
    have ha := h a (List.mem_cons_self _ _)
    simp only [List.map_cons, List.mapM_cons]
    rw [decodeLine_encode t true a ha.1 ha.2.1 ha.2.2.1 ha.2.2.2]
    rw [ih (fun d hd => h d (List.mem_cons_of_mem _ hd))]
    rfl

/-- Witness for C6 at a concrete family: one detection with fractional
threshold fields exactly representable in 32 decimal places. -/
theorem C6_write_read_round_trip_witness :
    (∀ d ∈ wFamF.detections, detClean d ∧ exact32 d.detect_val ∧
      exact32 d.threshold ∧ exact32 d.threshold_input) ∧
    readFamilyLines [] wFamF.template true (writeFamilyLines wFamF) =
      some (wFamF.detections.map (decodedForm wFamF.template)) := by
  have h : ∀ d ∈ wFamF.detections, detClean d ∧ exact32 d.detect_val ∧
      exact32 d.threshold ∧ exact32 d.threshold_input := by
    intro d hd
    have hd2 : d ∈ [wDetF] := hd
    rw [List.mem_singleton] at hd2
    subst hd2
    refine ⟨by decide, ⟨42 * 10 ^ 31, ?_⟩, ⟨12 * 10 ^ 31, ?_⟩, ⟨8 * 10 ^ 32, ?_⟩⟩
    · show (21/5 : ℚ) * ((pow32 : ℕ) : ℚ) = (((42 * 10 ^ 31 : ℤ)) : ℚ)
      norm_num [pow32]
    · show (6/5 : ℚ) * ((pow32 : ℕ) : ℚ) = (((12 * 10 ^ 31 : ℤ)) : ℚ)
      norm_num [pow32]
    · show (8 : ℚ) * ((pow32 : ℕ) : ℚ) = (((8 * 10 ^ 32 : ℤ)) : ℚ)
      norm_num [pow32]
  exact ⟨h, C6_write_read_round_trip wFamF h⟩

/-- C7, amended: the reader synthesizes a best-effort event only when
the supplied reference catalog is empty; a line whose detection carries
an event, read against a non-empty catalog containing no event whose
identifier ends in the referenced value, fails as a whole instead of
being recovered by synthesis. -/
theorem C7_synthesis_only_when_catalog_empty (all_cat : List Event)
    (t : Template) (d : Detection) (e : Event)
    (hclean : detClean d) (h1 : exact32 d.detect_val)
    (h2 : exact32 d.threshold) (h3 : exact32 d.threshold_input)
    (he : d.event = some e) (hne : all_cat ≠ [])
    (hmiss : ∀ ec ∈ all_cat, lastResourceComponent ec ≠ e.resource_id.data) :
    decodeLine [] t true (encodeDetection d) = some (decodedForm t d) ∧
    decodeLine all_cat t true (encodeDetection d) = none :=
⟨decodeLine_encode t true d hclean h1 h2 h3,
 decodeLine_encode_miss all_cat t true d e hclean h1 h2 h3 he hne hmiss⟩

/-- Witness for C7 at a concrete input: a stored detection carrying an
event, read against the empty catalog and against a one-event catalog
with a different identifier. -/
theorem C7_synthesis_only_when_catalog_empty_witness :
    ([wEvOther] ≠ ([] : List Event)) ∧
    (∀ ec ∈ [wEvOther], lastResourceComponent ec ≠ wEvE.resource_id.data) ∧
    (decodeLine [] wTmplA true (encodeDetection wDetE) =
       some (decodedForm wTmplA wDetE) ∧
     decodeLine [wEvOther] wTmplA true (encodeDetection wDetE) = none) := by
  refine ⟨by decide, by decide, C7_synthesis_only_when_catalog_empty
    [wEvOther] wTmplA wDetE wEvE (by decide) ⟨4 * 10 ^ 32, ?_⟩ ⟨10 ^ 32, ?_⟩
    ⟨8 * 10 ^ 32, ?_⟩ rfl (by decide) (by decide)⟩
  · show (4 : ℚ) * ((pow32 : ℕ) : ℚ) = (((4 * 10 ^ 32 : ℤ)) : ℚ)
    norm_num [pow32]
  · show (1 : ℚ) * ((pow32 : ℕ) : ℚ) = (((10 ^ 32 : ℤ)) : ℚ)
    norm_num [pow32]
  · show (8 : ℚ) * ((pow32 : ℕ) : ℚ) = (((8 * 10 ^ 32 : ℤ)) : ℚ)
    norm_num [pow32]

/-- C7, counterexample to the unrestricted recovery claim: a written
detection that carried an event, decoded against a non-empty supplied
catalog whose only event has a different identifier, is not recovered
by synthesis; the whole line read fails instead. -/
theorem C7_nonempty_catalog_counterexample :
    wDetE.event = some wEvE ∧ ([wEvOther] ≠ ([] : List Event)) ∧
    decodeLine [wEvOther] wTmplA true (encodeDetection wDetE) = none := by
  refine ⟨rfl, by decide, ?_⟩
  refine decodeLine_encode_miss [wEvOther] wTmplA true wDetE wEvE (by decide)
    ⟨4 * 10 ^ 32, ?_⟩ ⟨10 ^ 32, ?_⟩ ⟨8 * 10 ^ 32, ?_⟩ rfl (by decide) (by decide)
  · show (4 : ℚ) * ((pow32 : ℕ) : ℚ) = (((4 * 10 ^ 32 : ℤ)) : ℚ)
    norm_num [pow32]
  · show (1 : ℚ) * ((pow32 : ℕ) : ℚ) = (((10 ^ 32 : ℤ)) : ℚ)
    norm_num [pow32]
  · show (8 : ℚ) * ((pow32 : ℕ) : ℚ) = (((8 * 10 ^ 32 : ℤ)) : ℚ)
    norm_num [pow32]

end FamilySpec
